import Mathlib

/-!
Verification of the Synqra query core: the backend-neutral query AST, the
fluent builder, the capability validator, the relational (Postgres) and
document (Mongo) compilers, the migration planners, and the execute path.
All definitions are shallow embeddings of the TypeScript source
(`src/core/query.ts`, `src/query/builder.ts`, `src/adapters/postgres.ts`,
`src/adapters/mongo.ts`, `src/core/planner.ts`, `src/synqra.ts`).
-/

namespace Synqra

/-- Runtime values appearing as condition values, data payloads and document
fields (JS values in the source). Numbers are modelled as integers. -/
inductive Value where
  | str (s : String)
  | int (n : Int)
  | bool (b : Bool)
  | null
  | arr (xs : List Value)

mutual

/-- Boolean equality of values (JS deep equality on the modelled values). -/
def beqV : Value → Value → Bool
  | .str s, .str t => s == t
  | .int m, .int n => m == n
  | .bool a, .bool b => a == b
  | .null, .null => true
  | .arr xs, .arr ys => beqVL xs ys
  | _, _ => false

/-- Boolean equality of value lists. -/
def beqVL : List Value → List Value → Bool
  | [], [] => true
  | x :: xs, y :: ys => beqV x y && beqVL xs ys
  | _, _ => false

end

/-- A document / row: an ordered field-value association list. -/
abbrev Doc := List (String × Value)

/-- The `Operator` union from `src/core/query.ts` (`in` is `isin` here since
`in` is a Lean keyword). -/
inductive Operator where
  | eq | gt | lt | gte | lte | isin
  deriving DecidableEq, Repr

/-- A flat condition triple, `Condition` in `src/core/query.ts`. -/
structure Condition where
  field : String
  operator : Operator
  value : Value

/-- The tag of a logical group, `"AND" | "OR"` in the source. -/
inductive GType where
  | AND | OR
  deriving DecidableEq, Repr

/-- `LogicalCondition = Condition | LogicalGroup` from `src/core/query.ts`;
a logical group is the `group` constructor carrying its tag and children. -/
inductive LogicalCondition where
  | cond (c : Condition)
  | group (type : GType) (conditions : List LogicalCondition)

/-- A named logical group (`LogicalGroup` in the source): a tag plus a list
of children. -/
abbrev LogicalGroup := GType × List LogicalCondition

/-- Query kind: the `type` field of the AST. -/
inductive QueryType where
  | select | insert | update | delete
  deriving DecidableEq, Repr

/-- Aggregation function names. -/
inductive AggFunc where
  | count | sum | avg | min | max
  deriving DecidableEq, Repr

/-- Lower-case name of an aggregation function, as the source stores it. -/
def AggFunc.lower : AggFunc → String
  | .count => "count"
  | .sum => "sum"
  | .avg => "avg"
  | .min => "min"
  | .max => "max"

/-- An `AggregationOp` entry of the AST (`aliasName` models the optional
`alias` property, `alias` being a Lean keyword). -/
structure AggregationOp where
  function : AggFunc
  field : String
  aliasName : Option String
  deriving DecidableEq, Repr

/-- Sort direction. -/
inductive Direction where
  | asc | desc
  deriving DecidableEq, Repr

/-- The `orderBy` record of the AST. -/
structure OrderBy where
  field : String
  direction : Direction
  deriving DecidableEq, Repr

/-- The backend-neutral query AST (`QueryAST` in `src/core/query.ts`).
Optional fields model the `undefined`-able TypeScript fields. -/
structure QueryAST where
  type : QueryType
  table : String
  conditions : Option (List Condition) := none
  logical : Option (List LogicalGroup) := none
  groupBy : Option (List String) := none
  aggregations : Option (List AggregationOp) := none
  data : Option Doc := none
  limit : Option Nat := none
  offset : Option Nat := none
  orderBy : Option OrderBy := none
  select : Option (List String) := none

/-- The per-backend capability record (`AdapterCapabilities`). -/
structure AdapterCapabilities where
  supportsTransactions : Bool
  supportsAggregation : Bool
  supportsJoins : Bool
  supportsSchemaSync : Bool
  deriving DecidableEq, Repr

/-- A `CapabilityError` carries its message. -/
structure CapabilityError where
  message : String
  deriving DecidableEq, Repr

/-- The capability validator from `src/core/planner.ts` (`validateQuery`):
throwing is modelled as `Except.error`. -/
def validateQuery (query : QueryAST) (capabilities : AdapterCapabilities) :
    Except CapabilityError Bool :=
  if ¬ capabilities.supportsAggregation then
    if (query.aggregations.getD []).length > 0 then
      .error ⟨"Adapter does not support aggregations"⟩
    else if (query.groupBy.getD []).length > 0 then
      .error ⟨"Adapter does not support grouping"⟩
    else
      .ok true
  else
    .ok true

/-- Whether validation rejects the query. -/
def validationRejects (query : QueryAST) (capabilities : AdapterCapabilities) : Bool :=
  match validateQuery query capabilities with
  | .error _ => true
  | .ok _ => false

/-! ## The fluent query builder (`src/query/builder.ts`, class `QueryBuilder`) -/

/-- The private mutable state of a `QueryBuilder` instance. -/
structure BuilderState where
  table : String
  mode : QueryType := .select
  conditions : List Condition := []
  logicalGroups : List LogicalGroup := []
  groupByFields : Option (List String) := none
  aggregations : Option (List AggregationOp) := none
  data : Option Doc := none
  limitValue : Option Nat := none
  offsetValue : Option Nat := none
  orderByValue : Option OrderBy := none
  selectFields : Option (List String) := none

namespace QueryBuilder

/-- `new QueryBuilder(table)`. -/
def init (table : String) : BuilderState := { table }

/-- The `where` mutator. -/
def whereB (s : BuilderState) (field : String) (operator : Operator) (value : Value) :
    BuilderState :=
  { s with conditions := s.conditions ++ [⟨field, operator, value⟩] }

/-- The `or` mutator. -/
def orB (s : BuilderState) (conditions : List LogicalCondition) : BuilderState :=
  { s with logicalGroups := s.logicalGroups ++ [(GType.OR, conditions)] }

/-- The `and` mutator. -/
def andB (s : BuilderState) (conditions : List LogicalCondition) : BuilderState :=
  { s with logicalGroups := s.logicalGroups ++ [(GType.AND, conditions)] }

/-- The `limit` mutator. -/
def limitB (s : BuilderState) (n : Nat) : BuilderState := { s with limitValue := some n }

/-- The `offset` mutator. -/
def offsetB (s : BuilderState) (n : Nat) : BuilderState := { s with offsetValue := some n }

/-- The `paginate` mutator. -/
def paginateB (s : BuilderState) (page pageSize : Nat) : BuilderState :=
  { s with limitValue := some pageSize, offsetValue := some ((page - 1) * pageSize) }

/-- The `orderBy` mutator. -/
def orderByB (s : BuilderState) (field : String) (direction : Direction) : BuilderState :=
  { s with orderByValue := some ⟨field, direction⟩ }

/-- The `select` mutator. -/
def selectB (s : BuilderState) (fields : List String) : BuilderState :=
  { s with selectFields := some fields }

/-- The `insert` mutator: sets the mode and the payload. -/
def insertB (s : BuilderState) (d : Doc) : BuilderState :=
  { s with mode := .insert, data := some d }

/-- The `update` mutator: sets the mode and the payload. -/
def updateB (s : BuilderState) (d : Doc) : BuilderState :=
  { s with mode := .update, data := some d }

/-- The `delete` mutator: sets the mode only (the payload is not cleared). -/
def deleteB (s : BuilderState) : BuilderState := { s with mode := .delete }

/-- The `groupBy` mutator. -/
def groupByB (s : BuilderState) (fields : List String) : BuilderState :=
  { s with groupByFields := some fields }

/-- The private `aggregate` helper: initialises the list if missing, then
appends the entry. -/
def aggregateB (s : BuilderState) (func : AggFunc) (field : String)
    (aliasName : Option String) : BuilderState :=
  { s with aggregations := some ((s.aggregations.getD []) ++ [⟨func, field, aliasName⟩]) }

/-- `build()`: snapshots the state into a `QueryAST`; empty condition or
group lists and empty aggregation lists become `undefined`. -/
def build (s : BuilderState) : QueryAST :=
  { type := s.mode
    table := s.table
    conditions := if s.conditions.length ≠ 0 then some s.conditions else none
    logical := if s.logicalGroups.length ≠ 0 then some s.logicalGroups else none
    groupBy := s.groupByFields
    aggregations :=
      match s.aggregations with
      | some l => if l.length ≠ 0 then some l else none
      | none => none
    data := s.data
    limit := s.limitValue
    offset := s.offsetValue
    orderBy := s.orderByValue
    select := s.selectFields }

end QueryBuilder

/-- One public mutator call on a `QueryBuilder`. -/
inductive BuilderCall where
  | whereC (field : String) (operator : Operator) (value : Value)
  | orC (conditions : List LogicalCondition)
  | andC (conditions : List LogicalCondition)
  | limitC (n : Nat)
  | offsetC (n : Nat)
  | paginateC (page pageSize : Nat)
  | orderByC (field : String) (direction : Direction)
  | selectC (fields : List String)
  | insertC (d : Doc)
  | updateC (d : Doc)
  | deleteC
  | groupByC (fields : List String)
  | countC (field : String) (aliasName : Option String)
  | sumC (field : String) (aliasName : Option String)
  | avgC (field : String) (aliasName : Option String)
  | minC (field : String) (aliasName : Option String)
  | maxC (field : String) (aliasName : Option String)

/-- Apply one builder call to the builder state. -/
def applyCall (s : BuilderState) : BuilderCall → BuilderState
  | .whereC f op v => QueryBuilder.whereB s f op v
  | .orC cs => QueryBuilder.orB s cs
  | .andC cs => QueryBuilder.andB s cs
  | .limitC n => QueryBuilder.limitB s n
  | .offsetC n => QueryBuilder.offsetB s n
  | .paginateC p ps => QueryBuilder.paginateB s p ps
  | .orderByC f d => QueryBuilder.orderByB s f d
  | .selectC fs => QueryBuilder.selectB s fs
  | .insertC d => QueryBuilder.insertB s d
  | .updateC d => QueryBuilder.updateB s d
  | .deleteC => QueryBuilder.deleteB s
  | .groupByC fs => QueryBuilder.groupByB s fs
  | .countC f a => QueryBuilder.aggregateB s .count f a
  | .sumC f a => QueryBuilder.aggregateB s .sum f a
  | .avgC f a => QueryBuilder.aggregateB s .avg f a
  | .minC f a => QueryBuilder.aggregateB s .min f a
  | .maxC f a => QueryBuilder.aggregateB s .max f a

/-- Run a sequence of builder calls starting from `new QueryBuilder(table)`. -/
def runCalls (table : String) (calls : List BuilderCall) : BuilderState :=
  calls.foldl applyCall (QueryBuilder.init table)

/-- Whether a call is one of the payload-setting mode mutators. -/
def isDataCall : BuilderCall → Bool
  | .insertC _ => true
  | .updateC _ => true
  | _ => false

/-- Each builder call either sets `data` to a payload (insert/update) or
leaves `data` untouched; no call ever clears it. -/
theorem applyCall_data (s : BuilderState) (c : BuilderCall) :
    (applyCall s c).data = s.data ∨ ∃ d, (applyCall s c).data = some d := by
  cases c <;>
    simp [applyCall, QueryBuilder.whereB, QueryBuilder.orB, QueryBuilder.andB,
      QueryBuilder.limitB, QueryBuilder.offsetB, QueryBuilder.paginateB,
      QueryBuilder.orderByB, QueryBuilder.selectB, QueryBuilder.insertB,
      QueryBuilder.updateB, QueryBuilder.deleteB, QueryBuilder.groupByB,
      QueryBuilder.aggregateB]

/-- The builder invariant behind C10: `data` is set exactly when an insert or
update call has occurred, and a state in insert or update mode has a payload. -/
def BuilderInv (s : BuilderState) : Prop :=
  (s.mode = .insert ∨ s.mode = .update) → s.data ≠ none

theorem applyCall_inv (s : BuilderState) (c : BuilderCall) (h : BuilderInv s) :
    BuilderInv (applyCall s c) := by
  cases c <;>
    simp_all [applyCall, BuilderInv, QueryBuilder.whereB, QueryBuilder.orB,
      QueryBuilder.andB, QueryBuilder.limitB, QueryBuilder.offsetB,
      QueryBuilder.paginateB, QueryBuilder.orderByB, QueryBuilder.selectB,
      QueryBuilder.insertB, QueryBuilder.updateB, QueryBuilder.deleteB,
      QueryBuilder.groupByB, QueryBuilder.aggregateB]

theorem foldl_inv (calls : List BuilderCall) :
    ∀ s : BuilderState, BuilderInv s → BuilderInv (calls.foldl applyCall s) := by
  induction calls with
  | nil => intro s h; exact h
  | cons c rest ih => intro s h; exact ih _ (applyCall_inv s c h)

theorem foldl_data_iff (calls : List BuilderCall) :
    ∀ s : BuilderState,
      ((calls.foldl applyCall s).data ≠ none ↔
        (s.data ≠ none ∨ calls.any isDataCall = true)) := by
  induction calls with
  | nil => intro s; simp
  | cons c rest ih =>
    intro s
    rw [List.foldl_cons, ih (applyCall s c), List.any_cons]
    cases c <;>
      simp [applyCall, isDataCall, QueryBuilder.whereB, QueryBuilder.orB,
        QueryBuilder.andB, QueryBuilder.limitB, QueryBuilder.offsetB,
        QueryBuilder.paginateB, QueryBuilder.orderByB, QueryBuilder.selectB,
        QueryBuilder.insertB, QueryBuilder.updateB, QueryBuilder.deleteB,
        QueryBuilder.groupByB, QueryBuilder.aggregateB]

/-- C10 counterexample: the claim says the AST built after
`insert(data)` followed by `delete()` has no `data`, since its kind is
`delete`; but `delete()` only rewrites the mode and never clears the
payload, so the built AST has kind `delete` and still carries `data`. -/
theorem c10_counterexample :
    (QueryBuilder.build (runCalls "users"
        [.insertC [("name", Value.str "Bob")], .deleteC])).type = .delete ∧
    (QueryBuilder.build (runCalls "users"
        [.insertC [("name", Value.str "Bob")], .deleteC])).data =
      some [("name", Value.str "Bob")] ∧
    ¬ ((QueryBuilder.build (runCalls "users"
          [.insertC [("name", Value.str "Bob")], .deleteC])).data ≠ none ↔
        ((QueryBuilder.build (runCalls "users"
            [.insertC [("name", Value.str "Bob")], .deleteC])).type = .insert ∨
          (QueryBuilder.build (runCalls "users"
            [.insertC [("name", Value.str "Bob")], .deleteC])).type = .update)) := by
  refine ⟨rfl, rfl, ?_⟩
  intro h
  rcases h.mp (by simp [runCalls, applyCall, QueryBuilder.init, QueryBuilder.insertB,
    QueryBuilder.deleteB, QueryBuilder.build]) with h' | h' <;>
    simp [runCalls, applyCall, QueryBuilder.init, QueryBuilder.insertB,
      QueryBuilder.deleteB, QueryBuilder.build] at h'

/-- C10 (amended): for every sequence of builder calls, the built AST has
`data` present iff some insert or update call occurred (mode mutators never
clear the payload, so a later `delete()` retains it); and every AST whose
kind is insert or update does carry `data`. -/
theorem c10_builder_data (table : String) (calls : List BuilderCall) :
    ((QueryBuilder.build (runCalls table calls)).data ≠ none ↔
      calls.any isDataCall = true) ∧
    ((QueryBuilder.build (runCalls table calls)).type = .insert ∨
      (QueryBuilder.build (runCalls table calls)).type = .update →
      (QueryBuilder.build (runCalls table calls)).data ≠ none) := by
  have hdata : (QueryBuilder.build (runCalls table calls)).data =
      (runCalls table calls).data := rfl
  have htype : (QueryBuilder.build (runCalls table calls)).type =
      (runCalls table calls).mode := rfl
  constructor
  · rw [hdata, runCalls, foldl_data_iff]
    simp [QueryBuilder.init]
  · rw [hdata, htype]
    exact fun h => foldl_inv calls _ (by simp [BuilderInv, QueryBuilder.init]) h

/-- C10 witness: a concrete application of the amended theorem. -/
theorem c10_builder_data_witness :
    ((QueryBuilder.build (runCalls "users"
        [.insertC [("name", Value.str "Bob")], .deleteC])).data ≠ none ↔
      ([BuilderCall.insertC [("name", Value.str "Bob")], BuilderCall.deleteC].any
        isDataCall = true)) ∧
    ((QueryBuilder.build (runCalls "users"
        [.insertC [("name", Value.str "Bob")], .deleteC])).type = .insert ∨
      (QueryBuilder.build (runCalls "users"
        [.insertC [("name", Value.str "Bob")], .deleteC])).type = .update →
      (QueryBuilder.build (runCalls "users"
        [.insertC [("name", Value.str "Bob")], .deleteC])).data ≠ none) :=
  c10_builder_data "users" [.insertC [("name", Value.str "Bob")], .deleteC]

/-- C3: validation raises `CapabilityError` iff the capability set disallows
aggregation while the aggregations list or the groupBy list of the AST is
non-empty; with the aggregation flag set, the same AST always validates. -/
theorem c3_capability_gate (q : QueryAST) (caps : AdapterCapabilities) :
    (validationRejects q caps = true ↔
      (caps.supportsAggregation = false ∧
        ((q.aggregations.getD []).length > 0 ∨ (q.groupBy.getD []).length > 0))) ∧
    (caps.supportsAggregation = true → validateQuery q caps = .ok true) := by
  constructor
  · rcases caps with ⟨t, ag, j, s⟩
    cases ag
    · by_cases h1 : (q.aggregations.getD []).length > 0
      · simp [validationRejects, validateQuery, h1]
      · by_cases h2 : (q.groupBy.getD []).length > 0
        · simp [validationRejects, validateQuery, h1, h2]
        · simp [validationRejects, validateQuery, h1, h2]
    · simp [validationRejects, validateQuery]
  · intro h
    unfold validateQuery
    simp [h]

/-- C3 witness: a concrete aggregation AST is rejected by a capability set
without aggregation support and accepted by one with it. -/
theorem c3_capability_gate_witness :
    (validationRejects
        { type := .select, table := "sales",
          aggregations := some [⟨.count, "id", none⟩] }
        ⟨true, false, false, true⟩ = true) ∧
    (validateQuery
        { type := .select, table := "sales",
          aggregations := some [⟨.count, "id", none⟩] }
        ⟨true, true, false, true⟩ = .ok true) :=
  ⟨(c3_capability_gate _ ⟨true, false, false, true⟩).1.mpr
      ⟨rfl, Or.inl (by simp)⟩,
    (c3_capability_gate _ ⟨true, true, false, true⟩).2 rfl⟩

end Synqra

/-! ## The relational compiler (`src/adapters/postgres.ts`, class `PostgresAdapter`) -/

namespace Synqra

/-- The `mapOperator` table of the relational compiler. -/
def mapOperator : Operator → String
  | .eq => "="
  | .gt => ">"
  | .lt => "<"
  | .gte => ">="
  | .lte => "<="
  | .isin => "IN"

/-- Upper-case rendering of a sort direction (`direction.toUpperCase()`). -/
def dirUpper : Direction → String
  | .asc => "ASC"
  | .desc => "DESC"

/-- Rendering of a logical group tag. -/
def gtypeStr : GType → String
  | .AND => "AND"
  | .OR => "OR"

/-- Push each list element onto the positional value list in order and return
one placeholder string per element; each placeholder number is the length of
the value list right after its value was pushed (the `value.map` body of
`buildCondition` for the `in` operator). -/
def pushPlaceholders (values : List Value) : List Value → List String × List Value
  | [] => ([], values)
  | v :: vs =>
    let values' := values ++ [v]
    let (ps, values'') := pushPlaceholders values' vs
    (("$" ++ toString values'.length) :: ps, values'')

/-- `buildCondition`: renders one flat condition, appending its literal
values to the positional value list. -/
def pgBuildCondition (c : Condition) (values : List Value) : String × List Value :=
  match c.operator, c.value with
  | .isin, .arr xs =>
    if xs.isEmpty then ("1=0", values)
    else
      let (ps, values') := pushPlaceholders values xs
      (c.field ++ " IN (" ++ String.intercalate ", " ps ++ ")", values')
  | _, _ =>
    let values' := values ++ [c.value]
    (c.field ++ " " ++ mapOperator c.operator ++ " $" ++ toString values'.length, values')

mutual

/-- One child of a logical group: a flat condition goes through
`buildCondition`, a nested group through the `buildLogicalGroup` body. -/
def pgBuildChild : LogicalCondition → List Value → String × List Value
  | .cond c, values => pgBuildCondition c values
  | .group t gcs, values =>
    match gcs with
    | [] => ("1=1", values)
    | h :: tl =>
      let (strs, values') := pgBuildChildren (h :: tl) values
      ("(" ++ String.intercalate (" " ++ gtypeStr t ++ " ") strs ++ ")", values')

/-- The `group.conditions.map(...)` loop inside `buildLogicalGroup`. -/
def pgBuildChildren : List LogicalCondition → List Value → List String × List Value
  | [], values => ([], values)
  | c :: rest, values =>
    let (s, values') := pgBuildChild c values
    let (ss, values'') := pgBuildChildren rest values'
    (s :: ss, values'')

end

/-- `buildLogicalGroup`: an empty group renders as the tautology `1=1`;
otherwise the recursively rendered children are joined by the group tag and
parenthesised. -/
def pgBuildLogicalGroup (t : GType) (cs : List LogicalCondition) (values : List Value) :
    String × List Value :=
  match cs with
  | [] => ("1=1", values)
  | h :: tl =>
    let (strs, values') := pgBuildChildren (h :: tl) values
    ("(" ++ String.intercalate (" " ++ gtypeStr t ++ " ") strs ++ ")", values')

/-- A nested group child compiles exactly as `buildLogicalGroup` does. -/
theorem pgBuildChild_group (t : GType) (cs : List LogicalCondition) (values : List Value) :
    pgBuildChild (.group t cs) values = pgBuildLogicalGroup t cs values := by
  cases cs <;> rfl

/-- The flat-conditions loop of `buildWhere`. -/
def pgCondList (cs : List Condition) (values : List Value) : List String × List Value :=
  match cs with
  | [] => ([], values)
  | c :: rest =>
    let r := pgBuildCondition c values
    let rs := pgCondList rest r.2
    (r.1 :: rs.1, rs.2)

/-- The logical-groups loop of `buildWhere`. -/
def pgGroupList (gs : List LogicalGroup) (values : List Value) :
    List String × List Value :=
  match gs with
  | [] => ([], values)
  | (t, cs) :: rest =>
    let r := pgBuildLogicalGroup t cs values
    let rs := pgGroupList rest r.2
    (r.1 :: rs.1, rs.2)

/-- `buildWhere`: flat conditions first, then logical groups, joined with
`AND`; empty clause list renders as the empty string. -/
def pgBuildWhere (q : QueryAST) (values : List Value) : String × List Value :=
  let r1 := pgCondList (q.conditions.getD []) values
  let r2 := pgGroupList (q.logical.getD []) r1.2
  let clauses := r1.1 ++ r2.1
  (if clauses.isEmpty then "" else " WHERE " ++ String.intercalate " AND " clauses,
    r2.2)

/-- Upper-cased function name (`agg.function.toUpperCase()`). -/
def AggFunc.upper : AggFunc → String
  | .count => "COUNT"
  | .sum => "SUM"
  | .avg => "AVG"
  | .min => "MIN"
  | .max => "MAX"

/-- Rendering of one aggregation entry in the select list:
`FUNC(field)` with the function name upper-cased, plus ` AS alias` when an
alias is set. -/
def renderAgg (agg : AggregationOp) : String :=
  let aggStr := agg.function.upper ++ "(" ++ agg.field ++ ")"
  match agg.aliasName with
  | some a => aggStr ++ " AS " ++ a
  | none => aggStr

/-- `buildSelect`: the select list pushes the projection fields first, then
the rendered aggregations; `SELECT *` when the list stays empty; then WHERE,
GROUP BY, ORDER BY, LIMIT, OFFSET are appended in that order when present. -/
def pgBuildSelect (q : QueryAST) : String × List Value :=
  let selectItems : List String :=
    (q.select.getD []) ++ (q.aggregations.getD []).map renderAgg
  let text :=
    if selectItems.length > 0 then
      "SELECT " ++ String.intercalate ", " selectItems ++ " FROM " ++ q.table
    else
      "SELECT * FROM " ++ q.table
  let r := pgBuildWhere q []
  let values := r.2
  let text := text ++ r.1
  let text := text ++
    (match q.groupBy with
      | some gb => " GROUP BY " ++ String.intercalate ", " gb
      | none => "")
  let text := text ++
    (match q.orderBy with
      | some ob => " ORDER BY " ++ ob.field ++ " " ++ dirUpper ob.direction
      | none => "")
  let text := text ++
    (match q.limit with
      | some n => " LIMIT " ++ toString n
      | none => "")
  let text := text ++
    (match q.offset with
      | some n => " OFFSET " ++ toString n
      | none => "")
  (text, values)

/-- `buildInsert`: keys and values in the map iteration order of `data`. -/
def pgBuildInsert (q : QueryAST) : String × List Value :=
  let d := q.data.getD []
  let keys := d.map Prod.fst
  let values := d.map Prod.snd
  let placeholders := (List.range keys.length).map (fun i => "$" ++ toString (i + 1))
  ("INSERT INTO " ++ q.table ++ " (" ++ String.intercalate ", " keys ++
      ") VALUES (" ++ String.intercalate ", " placeholders ++ ") RETURNING *",
    values)

/-- `buildUpdate`: SET clauses over the data keys, then the WHERE clause with
the value list already holding the data values. -/
def pgBuildUpdate (q : QueryAST) : String × List Value :=
  let d := q.data.getD []
  let values := d.map Prod.snd
  let setClauses := d.enum.map (fun p => p.2.1 ++ " = $" ++ toString (p.1 + 1))
  let text := "UPDATE " ++ q.table ++ " SET " ++ String.intercalate ", " setClauses
  let r := pgBuildWhere q values
  (text ++ r.1, r.2)

/-- `buildDelete`. -/
def pgBuildDelete (q : QueryAST) : String × List Value :=
  let r := pgBuildWhere q []
  ("DELETE FROM " ++ q.table ++ r.1, r.2)

/-- `translate` / `plan`: dispatch on the query kind; the plan is the
statement text with the positional value list. -/
def pgTranslate (q : QueryAST) : String × List Value :=
  match q.type with
  | .select => pgBuildSelect q
  | .insert => pgBuildInsert q
  | .update => pgBuildUpdate q
  | .delete => pgBuildDelete q

end Synqra

/-! ## Structured view of the compiled WHERE clause

The statement text built by `buildWhere` is string concatenation; to reason
about placeholder numbers and to evaluate the lowered form, the same
compilation is mirrored on a structured clause type, and a renderer is
proved to reproduce the exact strings of `buildWhere`. -/

namespace Synqra

/-- The literal values a condition contributes to the positional value list,
in push order: the array elements for an array-valued `in`, the single value
otherwise. -/
def condVals (c : Condition) : List Value :=
  match c.operator, c.value with
  | .isin, .arr xs => xs
  | _, _ => [c.value]

mutual

/-- Values contributed by a logical-group child, depth first. -/
def lcVals : LogicalCondition → List Value
  | .cond c => condVals c
  | .group _ gcs => lcsVals gcs

/-- Values contributed by a child list, left to right. -/
def lcsVals : List LogicalCondition → List Value
  | [] => []
  | c :: rest => lcVals c ++ lcsVals rest

end

/-- Values contributed by the whole WHERE clause of a query: flat conditions
first, then logical groups, depth first and left to right. -/
def whereVals (q : QueryAST) : List Value :=
  (q.conditions.getD []).flatMap condVals ++
    (q.logical.getD []).flatMap (fun g => lcsVals g.2)

/-- A structured WHERE-clause fragment, in one-to-one correspondence with
the strings `buildWhere` produces. -/
inductive SqlClause where
  | cmp (field : String) (opSym : String) (idx : Nat)
  | inList (field : String) (idxs : List Nat)
  | falseLit
  | trueLit
  | grp (t : GType) (cs : List SqlClause)

mutual

/-- Renders a structured clause to the exact string of `buildWhere`. -/
def renderClause : SqlClause → String
  | .cmp f sym i => f ++ " " ++ sym ++ " $" ++ toString i
  | .inList f idxs =>
      f ++ " IN (" ++
        String.intercalate ", " (idxs.map (fun i => "$" ++ toString i)) ++ ")"
  | .falseLit => "1=0"
  | .trueLit => "1=1"
  | .grp t cs =>
      "(" ++ String.intercalate (" " ++ gtypeStr t ++ " ") (renderClauses cs) ++ ")"

/-- Renders a clause list. -/
def renderClauses : List SqlClause → List String
  | [] => []
  | c :: rest => renderClause c :: renderClauses rest

end

mutual

/-- Placeholder numbers occurring in a clause, in text order. -/
def phsClause : SqlClause → List Nat
  | .cmp _ _ i => [i]
  | .inList _ idxs => idxs
  | .falseLit => []
  | .trueLit => []
  | .grp _ cs => phsClauses cs

/-- Placeholder numbers of a clause list, in text order. -/
def phsClauses : List SqlClause → List Nat
  | [] => []
  | c :: rest => phsClause c ++ phsClauses rest

end

/-- Structured `buildCondition`. -/
def pgCondS (c : Condition) (values : List Value) : SqlClause × List Value :=
  match c.operator, c.value with
  | .isin, .arr xs =>
    if xs.isEmpty then (.falseLit, values)
    else
      (.inList c.field (List.range' (values.length + 1) xs.length), values ++ xs)
  | _, _ =>
    (.cmp c.field (mapOperator c.operator) (values.length + 1), values ++ [c.value])

mutual

/-- Structured compilation of one logical-group child. -/
def pgChildS : LogicalCondition → List Value → SqlClause × List Value
  | .cond c, values => pgCondS c values
  | .group t gcs, values =>
    match gcs with
    | [] => (.trueLit, values)
    | h :: tl =>
      let (cls, values') := pgChildrenS (h :: tl) values
      (.grp t cls, values')

/-- Structured compilation of a child list. -/
def pgChildrenS : List LogicalCondition → List Value → List SqlClause × List Value
  | [], values => ([], values)
  | c :: rest, values =>
    let (cl, values') := pgChildS c values
    let (cls, values'') := pgChildrenS rest values'
    (cl :: cls, values'')

end

/-- Structured `buildLogicalGroup`. -/
def pgGroupS (t : GType) (cs : List LogicalCondition) (values : List Value) :
    SqlClause × List Value :=
  match cs with
  | [] => (.trueLit, values)
  | h :: tl =>
    let (cls, values') := pgChildrenS (h :: tl) values
    (.grp t cls, values')

/-- Structured flat-conditions loop of `buildWhere`. -/
def pgCondListS : List Condition → List Value → List SqlClause × List Value
  | [], values => ([], values)
  | c :: rest, values =>
    let r := pgCondS c values
    let rs := pgCondListS rest r.2
    (r.1 :: rs.1, rs.2)

/-- Structured logical-groups loop of `buildWhere`. -/
def pgGroupListS : List LogicalGroup → List Value → List SqlClause × List Value
  | [], values => ([], values)
  | (t, cs) :: rest, values =>
    let r := pgGroupS t cs values
    let rs := pgGroupListS rest r.2
    (r.1 :: rs.1, rs.2)

/-- Structured `buildWhere`: flat conditions first, then logical groups. -/
def pgWhereS (q : QueryAST) (values : List Value) : List SqlClause × List Value :=
  let r1 := pgCondListS (q.conditions.getD []) values
  let r2 := pgGroupListS (q.logical.getD []) r1.2
  (r1.1 ++ r2.1, r2.2)

/-- Renders a structured WHERE-clause list to the final clause string. -/
def renderWhereClauses (cls : List SqlClause) : String :=
  if cls.isEmpty then ""
  else " WHERE " ++ String.intercalate " AND " (renderClauses cls)

end Synqra

namespace Synqra

theorem renderClauses_eq_map (cs : List SqlClause) :
    renderClauses cs = cs.map renderClause := by
  induction cs with
  | nil => rfl
  | cons c rest ih => rw [renderClauses, ih, List.map_cons]

theorem phsClauses_eq_flatMap (cs : List SqlClause) :
    phsClauses cs = cs.flatMap phsClause := by
  induction cs with
  | nil => rfl
  | cons c rest ih => rw [phsClauses, ih, List.flatMap_cons]

theorem pushPlaceholders_eq (xs : List Value) : ∀ values : List Value,
    pushPlaceholders values xs =
      ((List.range' (values.length + 1) xs.length).map (fun i => "$" ++ toString i),
        values ++ xs) := by
  induction xs with
  | nil => intro values; simp [pushPlaceholders]
  | cons v vs ih =>
    intro values
    rw [pushPlaceholders, ih (values ++ [v])]
    simp [List.range'_succ]

theorem pgBuildCondition_link (c : Condition) (values : List Value) :
    pgBuildCondition c values =
      (renderClause (pgCondS c values).1, (pgCondS c values).2) := by
  rcases c with ⟨f, op, v⟩
  cases op <;> cases v <;>
    try (simp [pgBuildCondition, pgCondS, renderClause, mapOperator]; done)
  case isin.arr xs =>
    by_cases h : xs.isEmpty
    · simp [pgBuildCondition, pgCondS, renderClause, h]
    · simp [pgBuildCondition, pgCondS, renderClause, h, pushPlaceholders_eq]

theorem pgCondS_snd (c : Condition) (values : List Value) :
    (pgCondS c values).2 = values ++ condVals c := by
  rcases c with ⟨f, op, v⟩
  cases op <;> cases v <;>
    try (simp [pgCondS, condVals]; done)
  case isin.arr xs =>
    by_cases h : xs.isEmpty
    · have hx : xs = [] := List.isEmpty_iff.mp h
      subst hx; simp [pgCondS, condVals]
    · simp [pgCondS, condVals, h]

theorem pgCondS_phs (c : Condition) (values : List Value) :
    phsClause (pgCondS c values).1 =
      List.range' (values.length + 1) (condVals c).length := by
  rcases c with ⟨f, op, v⟩
  cases op <;> cases v <;>
    try (simp [pgCondS, condVals, phsClause]; done)
  case isin.arr xs =>
    by_cases h : xs.isEmpty
    · have hx : xs = [] := List.isEmpty_iff.mp h
      subst hx; simp [pgCondS, condVals, phsClause]
    · simp [pgCondS, condVals, phsClause, h]

mutual

theorem pgChildS_link : ∀ (lc : LogicalCondition) (values : List Value),
    pgBuildChild lc values =
      (renderClause (pgChildS lc values).1, (pgChildS lc values).2)
  | .cond c, values => by
    simp [pgBuildChild, pgChildS, pgBuildCondition_link]
  | .group t [], values => by
    simp [pgBuildChild, pgChildS, renderClause]
  | .group t (h :: tl), values => by
    have ih := pgChildrenS_link (h :: tl) values
    simp [pgBuildChild, pgChildS, renderClause, ih]

theorem pgChildrenS_link : ∀ (cs : List LogicalCondition) (values : List Value),
    pgBuildChildren cs values =
      (renderClauses (pgChildrenS cs values).1, (pgChildrenS cs values).2)
  | [], values => by simp [pgBuildChildren, pgChildrenS, renderClauses]
  | c :: rest, values => by
    have ih1 := pgChildS_link c values
    have ih2 := pgChildrenS_link rest (pgChildS c values).2
    simp [pgBuildChildren, pgChildrenS, renderClauses, ih1, ih2]

end

mutual

theorem pgChildS_snd : ∀ (lc : LogicalCondition) (values : List Value),
    (pgChildS lc values).2 = values ++ lcVals lc
  | .cond c, values => by simp [pgChildS, pgCondS_snd, lcVals]
  | .group t [], values => by simp [pgChildS, lcVals, lcsVals]
  | .group t (h :: tl), values => by
    have ih := pgChildrenS_snd (h :: tl) values
    simp [pgChildS, lcVals, ih]

theorem pgChildrenS_snd : ∀ (cs : List LogicalCondition) (values : List Value),
    (pgChildrenS cs values).2 = values ++ lcsVals cs
  | [], values => by simp [pgChildrenS, lcsVals]
  | c :: rest, values => by
    have ih1 := pgChildS_snd c values
    have ih2 := pgChildrenS_snd rest (pgChildS c values).2
    rw [ih1] at ih2
    simp [pgChildrenS, lcsVals, ih1, ih2]

end

mutual

theorem pgChildS_phs : ∀ (lc : LogicalCondition) (values : List Value),
    phsClause (pgChildS lc values).1 =
      List.range' (values.length + 1) (lcVals lc).length
  | .cond c, values => by simp [pgChildS, pgCondS_phs, lcVals]
  | .group t [], values => by simp [pgChildS, phsClause, lcVals, lcsVals]
  | .group t (h :: tl), values => by
    have ih := pgChildrenS_phs (h :: tl) values
    simp [pgChildS, phsClause, lcVals, ih]

theorem pgChildrenS_phs : ∀ (cs : List LogicalCondition) (values : List Value),
    phsClauses (pgChildrenS cs values).1 =
      List.range' (values.length + 1) (lcsVals cs).length
  | [], values => by simp [pgChildrenS, phsClauses, lcsVals]
  | c :: rest, values => by
    have ih1 := pgChildS_phs c values
    have ih2 := pgChildrenS_phs rest (pgChildS c values).2
    have hv := pgChildS_snd c values
    rw [hv] at ih2
    simp [pgChildrenS, phsClauses, lcsVals, ih1, hv, ih2]
    have h3 : values.length + (lcVals c).length + 1 =
        values.length + 1 + (lcVals c).length := by omega
    rw [h3, List.range'_append_1,
      Nat.add_comm (lcsVals rest).length (lcVals c).length]

end

end Synqra

namespace Synqra

theorem pgGroupS_eq (t : GType) (cs : List LogicalCondition) (values : List Value) :
    pgGroupS t cs values = pgChildS (.group t cs) values := by
  cases cs <;> rfl

theorem pgBuildLogicalGroup_eq (t : GType) (cs : List LogicalCondition)
    (values : List Value) :
    pgBuildLogicalGroup t cs values = pgBuildChild (.group t cs) values := by
  cases cs <;> rfl

theorem pgGroupS_link (t : GType) (cs : List LogicalCondition) (values : List Value) :
    pgBuildLogicalGroup t cs values =
      (renderClause (pgGroupS t cs values).1, (pgGroupS t cs values).2) := by
  rw [pgGroupS_eq, pgBuildLogicalGroup_eq, pgChildS_link]

theorem pgGroupS_snd (t : GType) (cs : List LogicalCondition) (values : List Value) :
    (pgGroupS t cs values).2 = values ++ lcsVals cs := by
  rw [pgGroupS_eq, pgChildS_snd]; simp [lcVals]

theorem pgGroupS_phs (t : GType) (cs : List LogicalCondition) (values : List Value) :
    phsClause (pgGroupS t cs values).1 =
      List.range' (values.length + 1) (lcsVals cs).length := by
  rw [pgGroupS_eq, pgChildS_phs]; simp [lcVals]

theorem pgCondListS_link : ∀ (cs : List Condition) (values : List Value),
    pgCondList cs values =
      (renderClauses (pgCondListS cs values).1, (pgCondListS cs values).2)
  | [], values => by simp [pgCondList, pgCondListS, renderClauses]
  | c :: rest, values => by
    have hlink := pgBuildCondition_link c values
    have ih := pgCondListS_link rest (pgCondS c values).2
    simp [pgCondList, pgCondListS, renderClauses, hlink, ih]

theorem pgCondListS_snd : ∀ (cs : List Condition) (values : List Value),
    (pgCondListS cs values).2 = values ++ cs.flatMap condVals
  | [], values => by simp [pgCondListS]
  | c :: rest, values => by
    have hc := pgCondS_snd c values
    have ih := pgCondListS_snd rest (pgCondS c values).2
    rw [hc] at ih
    simp [pgCondListS, ih, hc, List.flatMap_cons, List.append_assoc]

theorem pgCondListS_phs : ∀ (cs : List Condition) (values : List Value),
    phsClauses (pgCondListS cs values).1 =
      List.range' (values.length + 1) (cs.flatMap condVals).length
  | [], values => by simp [pgCondListS, phsClauses]
  | c :: rest, values => by
    have hph := pgCondS_phs c values
    have hv := pgCondS_snd c values
    have ih := pgCondListS_phs rest (pgCondS c values).2
    rw [hv] at ih
    simp only [pgCondListS, phsClauses]
    rw [hph, hv, ih, List.flatMap_cons, List.length_append, List.length_append]
    have h3 : values.length + (condVals c).length + 1 =
        values.length + 1 + (condVals c).length := by omega
    rw [h3, List.range'_append_1,
      Nat.add_comm (rest.flatMap condVals).length (condVals c).length]

theorem pgGroupListS_link : ∀ (gs : List LogicalGroup) (values : List Value),
    pgGroupList gs values =
      (renderClauses (pgGroupListS gs values).1, (pgGroupListS gs values).2)
  | [], values => by simp [pgGroupList, pgGroupListS, renderClauses]
  | (t, cs) :: rest, values => by
    have hlink := pgGroupS_link t cs values
    have ih := pgGroupListS_link rest (pgGroupS t cs values).2
    simp [pgGroupList, pgGroupListS, renderClauses, hlink, ih]

theorem pgGroupListS_snd : ∀ (gs : List LogicalGroup) (values : List Value),
    (pgGroupListS gs values).2 = values ++ gs.flatMap (fun g => lcsVals g.2)
  | [], values => by simp [pgGroupListS]
  | (t, cs) :: rest, values => by
    have hc := pgGroupS_snd t cs values
    have ih := pgGroupListS_snd rest (pgGroupS t cs values).2
    rw [hc] at ih
    simp [pgGroupListS, ih, hc, List.flatMap_cons, List.append_assoc]

theorem pgGroupListS_phs : ∀ (gs : List LogicalGroup) (values : List Value),
    phsClauses (pgGroupListS gs values).1 =
      List.range' (values.length + 1) (gs.flatMap (fun g => lcsVals g.2)).length
  | [], values => by simp [pgGroupListS, phsClauses]
  | (t, cs) :: rest, values => by
    have hph := pgGroupS_phs t cs values
    have hv := pgGroupS_snd t cs values
    have ih := pgGroupListS_phs rest (pgGroupS t cs values).2
    rw [hv] at ih
    simp only [pgGroupListS, phsClauses]
    rw [hph, hv, ih, List.flatMap_cons, List.length_append, List.length_append]
    have h3 : values.length + (lcsVals cs).length + 1 =
        values.length + 1 + (lcsVals cs).length := by omega
    rw [h3, List.range'_append_1,
      Nat.add_comm ((rest.flatMap fun g => lcsVals g.2).length) (lcsVals cs).length]

theorem pgWhereS_snd (q : QueryAST) (values : List Value) :
    (pgWhereS q values).2 = values ++ whereVals q := by
  have h1 := pgCondListS_snd (q.conditions.getD []) values
  have h2 := pgGroupListS_snd (q.logical.getD [])
    (pgCondListS (q.conditions.getD []) values).2
  rw [h1] at h2
  simp [pgWhereS, whereVals, h1, h2]

theorem pgWhereS_phs (q : QueryAST) (values : List Value) :
    phsClauses (pgWhereS q values).1 =
      List.range' (values.length + 1) (whereVals q).length := by
  have h1 := pgCondListS_phs (q.conditions.getD []) values
  have hv := pgCondListS_snd (q.conditions.getD []) values
  have h2 := pgGroupListS_phs (q.logical.getD [])
    (pgCondListS (q.conditions.getD []) values).2
  rw [hv] at h2
  simp only [pgWhereS, whereVals]
  rw [phsClauses_eq_flatMap, List.flatMap_append, ← phsClauses_eq_flatMap,
    ← phsClauses_eq_flatMap, h1, hv, h2, List.length_append, List.length_append]
  have h3 : values.length + ((q.conditions.getD []).flatMap condVals).length + 1 =
      values.length + 1 + ((q.conditions.getD []).flatMap condVals).length := by omega
  rw [h3, List.range'_append_1,
    Nat.add_comm (((q.logical.getD []).flatMap fun g => lcsVals g.2).length)
      (((q.conditions.getD []).flatMap condVals).length)]

theorem renderClause_map_isEmpty (l : List SqlClause) :
    (l.map renderClause).isEmpty = l.isEmpty := by
  cases l <;> rfl

theorem pgBuildWhere_link (q : QueryAST) (values : List Value) :
    pgBuildWhere q values =
      (renderWhereClauses (pgWhereS q values).1, (pgWhereS q values).2) := by
  have h1 := pgCondListS_link (q.conditions.getD []) values
  have h2 := pgGroupListS_link (q.logical.getD [])
    (pgCondListS (q.conditions.getD []) values).2
  simp only [pgBuildWhere, pgWhereS, renderWhereClauses, h1, h2,
    renderClauses_eq_map, ← List.map_append, renderClause_map_isEmpty]

/-- The WHERE clause of §8 placeholder-correctness example:
`age > 18 AND (status = 'active' OR status = 'pending')`. -/
def exampleC2 : QueryAST :=
  { type := .select, table := "users",
    conditions := some [⟨"age", .gt, .int 18⟩],
    logical := some [(.OR, [.cond ⟨"status", .eq, .str "active"⟩,
                            .cond ⟨"status", .eq, .str "pending"⟩])] }

/-- C2: the relational compiler appends literal condition values to the
positional value list in left-to-right, depth-first order (flat conditions
first, then logical groups, recursing into nested groups) — `whereVals`
spells out exactly that traversal — and each placeholder written into the
statement equals the length of the value list when its value was appended:
starting from a list of length `n`, the placeholders read off the clause
text in order are exactly `n+1, n+2, …`; the structured clause list renders
to the exact compiled text.  The §8 example compiles to
`WHERE age > $1 AND (status = $2 OR status = $3)` with value list
`[18, "active", "pending"]`. -/
theorem c2_placeholder_binding :
    (∀ (q : QueryAST) (values : List Value),
        (pgBuildWhere q values).2 = values ++ whereVals q) ∧
    (∀ (q : QueryAST) (values : List Value),
        phsClauses (pgWhereS q values).1 =
          List.range' (values.length + 1) (whereVals q).length) ∧
    (∀ (q : QueryAST) (values : List Value),
        pgBuildWhere q values =
          (renderWhereClauses (pgWhereS q values).1, (pgWhereS q values).2)) ∧
    pgBuildSelect exampleC2 =
      ("SELECT * FROM users WHERE age > $1 AND (status = $2 OR status = $3)",
        [.int 18, .str "active", .str "pending"]) := by
  refine ⟨?_, pgWhereS_phs, pgBuildWhere_link, rfl⟩
  intro q values
  rw [pgBuildWhere_link]
  exact pgWhereS_snd q values

/-- The column list from the original C7 claim wording: rendered
aggregations first, then the projection list. -/
def claimSelectCols (q : QueryAST) : List String :=
  (q.aggregations.getD []).map renderAgg ++ q.select.getD []

/-- The column list the code builds: projection list first, then the
rendered aggregations. -/
def codeSelectCols (q : QueryAST) : List String :=
  q.select.getD [] ++ (q.aggregations.getD []).map renderAgg

/-- Statement text in the claim shape: `SELECT <cols> FROM <table>` (`*`
when the column list is empty), then the WHERE, GROUP BY, ORDER BY, LIMIT
and OFFSET clauses in that fixed order, each only when present. -/
def specSelectText (cols : List String) (q : QueryAST) : String :=
  (if cols.isEmpty then "SELECT * FROM " ++ q.table
    else "SELECT " ++ String.intercalate ", " cols ++ " FROM " ++ q.table)
  ++ (pgBuildWhere q []).1
  ++ (match q.groupBy with
      | some gb => " GROUP BY " ++ String.intercalate ", " gb
      | none => "")
  ++ (match q.orderBy with
      | some ob => " ORDER BY " ++ ob.field ++ " " ++ dirUpper ob.direction
      | none => "")
  ++ (match q.limit with
      | some n => " LIMIT " ++ toString n
      | none => "")
  ++ (match q.offset with
      | some n => " OFFSET " ++ toString n
      | none => "")

/-- A select with both a projection and an aliased aggregation. -/
def exampleC7 : QueryAST :=
  { type := .select, table := "t", select := some ["a"],
    aggregations := some [⟨.count, "b", some "c"⟩] }

/-- C7 counterexample: the claim puts the rendered aggregation list before
the projection list, but `buildSelect` pushes the projection fields first:
the compiled text is `SELECT a, COUNT(b) AS c FROM t`, not the claimed
`SELECT COUNT(b) AS c, a FROM t`. -/
theorem c7_counterexample :
    (pgTranslate exampleC7).1 = "SELECT a, COUNT(b) AS c FROM t" ∧
    specSelectText (claimSelectCols exampleC7) exampleC7 =
      "SELECT COUNT(b) AS c, a FROM t" ∧
    (pgTranslate exampleC7).1 ≠ specSelectText (claimSelectCols exampleC7) exampleC7 :=
  ⟨rfl, rfl, by decide⟩

/-- C7 (amended): for every select AST the compiled text is
`SELECT <cols> FROM <table>` where `<cols>` is the projection list
concatenated with the rendered aggregation list (`FUNC(field)[ AS alias]`,
function upper-cased) in that order — projection first — or `*` when the
concatenation is empty; then the WHERE, GROUP BY, ORDER BY, LIMIT and
OFFSET clauses are appended in exactly that fixed order, each only when the
corresponding AST field is present. -/
theorem c7_select_shape (q : QueryAST) (hq : q.type = .select) :
    (pgTranslate q).1 = specSelectText (codeSelectCols q) q := by
  obtain ⟨ty, table, conds, lg, gb, ag, d, lim, off, ob, sel⟩ := q
  simp only at hq
  subst hq
  rcases hx : sel.getD [] ++ (ag.getD []).map renderAgg with _ | ⟨a, l⟩ <;>
    simp only [pgTranslate, pgBuildSelect, specSelectText, codeSelectCols, hx] <;>
    simp

/-- C7 witness: the amended shape at the concrete query of the
counterexample. -/
theorem c7_select_shape_witness :
    (pgTranslate exampleC7).1 = specSelectText (codeSelectCols exampleC7) exampleC7 :=
  c7_select_shape exampleC7 rfl

end Synqra

/-! ## The document compiler (`src/adapters/mongo.ts`, class `MongoAdapter`) -/

namespace Synqra

/-- A document filter, in one-to-one correspondence with the JSON objects
built by `buildFilter` / `buildCondition` / `buildLogicalGroup`. -/
inductive MFilter where
  | empty
  | eqF (field : String) (v : Value)
  | cmpF (field : String) (op : Operator) (v : Value)
  | inF (field : String) (vs : List Value)
  | andF (fs : List MFilter)
  | orF (fs : List MFilter)

/-- `Object.keys(filter).length > 0`: every constructed non-empty filter
document has at least one key. -/
def MFilter.hasKeys : MFilter → Bool
  | .empty => false
  | _ => true

/-- `buildCondition` of the document compiler: `eq` maps to direct equality,
comparison operators map to their `$`-keys, `in` wraps a non-array value
into a one-element array. -/
def mongoBuildCondition (c : Condition) : MFilter :=
  match c.operator with
  | .eq => .eqF c.field c.value
  | .gt => .cmpF c.field .gt c.value
  | .lt => .cmpF c.field .lt c.value
  | .gte => .cmpF c.field .gte c.value
  | .lte => .cmpF c.field .lte c.value
  | .isin => .inF c.field (match c.value with | .arr xs => xs | v => [v])

mutual

/-- One logical-group child of the document compiler. -/
def mongoBuildChild : LogicalCondition → MFilter
  | .cond c => mongoBuildCondition c
  | .group t gcs =>
    match gcs with
    | [] => .empty
    | h :: tl =>
      match t with
      | .AND => .andF (mongoBuildChildren (h :: tl))
      | .OR => .orF (mongoBuildChildren (h :: tl))

/-- The children list of a logical group. -/
def mongoBuildChildren : List LogicalCondition → List MFilter
  | [] => []
  | c :: rest => mongoBuildChild c :: mongoBuildChildren rest

end

/-- `buildLogicalGroup` of the document compiler: empty group compiles to
the empty filter document; otherwise `$and` / `$or` over the children. -/
def mongoBuildLogicalGroup (t : GType) (cs : List LogicalCondition) : MFilter :=
  match cs with
  | [] => .empty
  | h :: tl =>
    match t with
    | .AND => .andF (mongoBuildChildren (h :: tl))
    | .OR => .orF (mongoBuildChildren (h :: tl))

/-- A nested group child compiles exactly as `buildLogicalGroup` does. -/
theorem mongoBuildChild_group (t : GType) (cs : List LogicalCondition) :
    mongoBuildChild (.group t cs) = mongoBuildLogicalGroup t cs := by
  cases cs <;> cases t <;> rfl

/-- The tail of `buildFilter`: a single clause stands alone, several are
wrapped in `$and`, none give the empty filter. -/
def mongoCombine (andClauses : List MFilter) : MFilter :=
  match andClauses with
  | [c] => c
  | [] => .empty
  | cs => .andF cs

/-- `buildFilter`: flat conditions and logical groups are AND-ed. -/
def mongoBuildFilter (q : QueryAST) : MFilter :=
  mongoCombine
    ((q.conditions.getD []).map mongoBuildCondition ++
      (q.logical.getD []).map (fun g => mongoBuildLogicalGroup g.1 g.2))

/-- The `_id` expression of a `$group` stage. -/
inductive GroupId where
  | null
  | single (ref : String)
  | compound (fields : List (String × String))

/-- One accumulator expression of a `$group` stage: `{$sum: 1}` for count,
`{$func: "$field"}` otherwise. -/
inductive AggExpr where
  | sumOne
  | funcField (func : String) (ref : String)

/-- A `$group` stage: the `_id` plus the accumulator entries in order. -/
structure GroupStage where
  id : GroupId
  accs : List (String × AggExpr)

/-- One aggregation-pipeline stage. -/
inductive Stage where
  | matchStage (filter : MFilter)
  | groupStage (g : GroupStage)
  | sortStage (field : String) (dir : Int)
  | skipStage (n : Nat)
  | limitStage (n : Nat)

/-- The `$group` stage construction inside `buildAggregatePipeline`:
`_id` is `null` without group-by fields, the single `$field` reference for
one, and an object with one entry per field for several; each aggregation
becomes `alias || func_field` mapped to `{$sum: 1}` for count or
`{$func: "$field"}` otherwise. -/
def mongoGroupStage (q : QueryAST) : GroupStage :=
  let gid : GroupId :=
    match q.groupBy with
    | some [] => .null
    | some [f] => .single ("$" ++ f)
    | some gb => .compound (gb.map (fun f => (f, "$" ++ f)))
    | none => .null
  let accs := (q.aggregations.getD []).map (fun agg =>
    let outField := agg.aliasName.getD (agg.function.lower ++ "_" ++ agg.field)
    (outField,
      if agg.function = .count then AggExpr.sumOne
      else AggExpr.funcField ("$" ++ agg.function.lower) ("$" ++ agg.field)))
  ⟨gid, accs⟩

/-- `buildAggregatePipeline`: `$match` (only when the filter has keys), then
`$group`, then `$sort` (with a sorted group key remapped to `_id` /
`_id.<field>`), then `$skip`, then `$limit`, in that fixed order, each
included only when its AST field is present. -/
def buildAggregatePipeline (q : QueryAST) (filter : MFilter) : List Stage :=
  (if filter.hasKeys then [Stage.matchStage filter] else [])
  ++ [Stage.groupStage (mongoGroupStage q)]
  ++ (match q.orderBy with
      | some ob =>
        let mappedField :=
          if (q.groupBy.getD []).contains ob.field then
            if (q.groupBy.getD []).length = 1 then "_id" else "_id." ++ ob.field
          else ob.field
        [Stage.sortStage mappedField (if ob.direction = .asc then 1 else -1)]
      | none => [])
  ++ (match q.offset with | some n => [Stage.skipStage n] | none => [])
  ++ (match q.limit with | some n => [Stage.limitStage n] | none => [])

/-- The options record of a non-aggregate select plan (`mongo-query`). -/
structure MongoFindOptions where
  projection : Option (List (String × Nat)) := none
  limit : Option Nat := none
  skip : Option Nat := none
  sort : Option (String × Int) := none

/-- The options the document compiler attaches to a plain find. -/
def mongoFindOptions (q : QueryAST) : MongoFindOptions :=
  { projection := q.select.map (fun fs => fs.map (fun f => (f, 1)))
    limit := q.limit
    skip := q.offset
    sort := q.orderBy.map (fun ob => (ob.field, if ob.direction = .asc then 1 else -1)) }

/-- The lowered form produced by `MongoAdapter.plan`. -/
inductive MongoPlan where
  | pipeline (stages : List Stage)
  | find (filter : MFilter) (options : MongoFindOptions)
  | write (filter : MFilter) (data : Option Doc)

/-- `MongoAdapter.plan`: a select lowers to a pipeline when aggregations or
grouping are present (any defined array is truthy in the source), and to a
filter-plus-options find otherwise; writes lower to filter plus payload. -/
def mongoPlan (q : QueryAST) : MongoPlan :=
  let filter := mongoBuildFilter q
  match q.type with
  | .select =>
    if q.aggregations.isSome || q.groupBy.isSome then
      .pipeline (buildAggregatePipeline q filter)
    else
      .find filter (mongoFindOptions q)
  | _ => .write filter q.data

end Synqra

/-! ## A uniform evaluation model for both lowered forms

The engines themselves are external collaborators; both lowered forms are
evaluated against fixture data under one shared value comparison, which is
what the parity claims quantify over. -/

namespace Synqra

/-- Constructor rank, used to order values of different shapes. -/
def rankV : Value → Nat
  | .null => 0
  | .bool _ => 1
  | .int _ => 2
  | .str _ => 3
  | .arr _ => 4

mutual

/-- Total comparison of values: within a shape the natural order, across
shapes by constructor rank. -/
def cmpV : Value → Value → Ordering
  | .str a, .str b => compare a b
  | .int a, .int b => compare a b
  | .bool a, .bool b => compare a b
  | .null, .null => .eq
  | .arr a, .arr b => cmpVL a b
  | a, b => compare (rankV a) (rankV b)

/-- Lexicographic comparison of value lists. -/
def cmpVL : List Value → List Value → Ordering
  | [], [] => .eq
  | [], _ :: _ => .lt
  | _ :: _, [] => .gt
  | a :: as, b :: bs =>
    match cmpV a b with
    | .eq => cmpVL as bs
    | o => o

end

/-- Field access on a document; a missing field reads as null. -/
def lookupD (doc : Doc) (f : String) : Value :=
  match doc.lookup f with
  | some v => v
  | none => .null

/-- Shared semantics of a comparison operator on values. -/
def cmpOp : Operator → Value → Value → Bool
  | .eq, a, b => beqV a b
  | .gt, a, b => cmpV a b == .gt
  | .lt, a, b => cmpV a b == .lt
  | .gte, a, b => !(cmpV a b == .lt)
  | .lte, a, b => !(cmpV a b == .gt)
  | .isin, a, b =>
    match b with
    | .arr xs => xs.any (beqV a)
    | _ => false

mutual

/-- Whether a document matches a filter. -/
def matchF (doc : Doc) : MFilter → Bool
  | .empty => true
  | .eqF f v => beqV (lookupD doc f) v
  | .cmpF f op v => cmpOp op (lookupD doc f) v
  | .inF f vs => vs.any (beqV (lookupD doc f))
  | .andF fs => matchFL doc fs
  | .orF fs => matchFLor doc fs

/-- Conjunction over a filter list. -/
def matchFL (doc : Doc) : List MFilter → Bool
  | [] => true
  | f :: rest => matchF doc f && matchFL doc rest

/-- Disjunction over a filter list. -/
def matchFLor (doc : Doc) : List MFilter → Bool
  | [] => false
  | f :: rest => matchF doc f || matchFLor doc rest

end

/-- C4: a condition `field IN []` compiles to the literal contradiction
`1=0` on the relational side without touching the value list, and on the
document side to an `$in` over the empty array, which matches no document;
for a non-empty array the relational side renders
`field IN ($n+1, …, $n+k)` with exactly one placeholder per array element
(`k = xs.length` placeholders, consecutively numbered) and appends exactly
the array elements to the value list. -/
theorem c4_empty_in (f : String) (xs : List Value) (values : List Value) (doc : Doc) :
    pgBuildCondition ⟨f, .isin, .arr []⟩ values = ("1=0", values) ∧
    mongoBuildCondition ⟨f, .isin, .arr []⟩ = .inF f [] ∧
    matchF doc (mongoBuildCondition ⟨f, .isin, .arr []⟩) = false ∧
    (xs ≠ [] →
      pgBuildCondition ⟨f, .isin, .arr xs⟩ values =
        (f ++ " IN (" ++ String.intercalate ", "
            ((List.range' (values.length + 1) xs.length).map
              (fun i => "$" ++ toString i)) ++ ")",
          values ++ xs)) := by
  refine ⟨rfl, rfl, rfl, fun h => ?_⟩
  have hne : xs.isEmpty = false := by
    cases xs with
    | nil => exact absurd rfl h
    | cons a l => rfl
  simp [pgBuildCondition, hne, pushPlaceholders_eq]

/-- C4 witness: the non-empty branch at a concrete one-element array. -/
theorem c4_empty_in_witness :
    pgBuildCondition ⟨"status", .isin, .arr [Value.str "a"]⟩ [] =
      ("status IN ($1)", [Value.str "a"]) := by
  have h := (c4_empty_in "status" [Value.str "a"] [] []).2.2.2 (by simp)
  exact h

end Synqra

namespace Synqra

/-- The `_id` expression of the `$group` stage as the claim words it: the
single group field reference for one group-by field, an object with one
entry per field for several, null for none. -/
def claimGroupId (q : QueryAST) : GroupId :=
  match q.groupBy.getD [] with
  | [] => .null
  | [f] => .single ("$" ++ f)
  | gb => .compound (gb.map (fun f => (f, "$" ++ f)))

/-- The accumulator entries of the `$group` stage as the claim words them:
the out-field is the alias when set (`func_field` otherwise), count becomes
`$sum: 1`, every other function `$func: "$field"`. -/
def claimAccs (q : QueryAST) : List (String × AggExpr) :=
  (q.aggregations.getD []).map (fun agg =>
    (agg.aliasName.getD (agg.function.lower ++ "_" ++ agg.field),
      if agg.function = .count then AggExpr.sumOne
      else AggExpr.funcField ("$" ++ agg.function.lower) ("$" ++ agg.field)))

/-- The sorted-field remapping of the claim: a sorted field that is also a
group key is remapped to `_id` for a single group key and `_id.<field>` for
a compound key. -/
def claimSortField (q : QueryAST) (f : String) : String :=
  if (q.groupBy.getD []).contains f then
    if (q.groupBy.getD []).length = 1 then "_id" else "_id." ++ f
  else f

/-- The §8 aggregation example: table `sales`, filter `status = "paid"`,
`groupBy(["category","year"])`, `sum("amount","total")`. -/
def exampleC5 : QueryAST :=
  { type := .select, table := "sales",
    conditions := some [⟨"status", .eq, .str "paid"⟩],
    groupBy := some ["category", "year"],
    aggregations := some [⟨.sum, "amount", some "total"⟩] }

/-- C5: for every select AST with grouping or aggregation the document
compiler emits the ordered pipeline `$match?` (only when the compiled
filter is non-empty), `$group` (with the claimed `_id` and accumulator
shapes), `$sort?` (group keys remapped to `_id` / `_id.<field>`), `$skip?`,
`$limit?`, each optional stage present exactly when its AST field is; and
the §8 sales example lowers to exactly the two-stage match-group pipeline. -/
theorem c5_pipeline_shape (q : QueryAST) (hty : q.type = .select)
    (hagg : q.aggregations.isSome ∨ q.groupBy.isSome) :
    mongoPlan q = .pipeline (
      (if (mongoBuildFilter q).hasKeys
        then [Stage.matchStage (mongoBuildFilter q)] else [])
      ++ [Stage.groupStage ⟨claimGroupId q, claimAccs q⟩]
      ++ (match q.orderBy with
          | some ob => [Stage.sortStage (claimSortField q ob.field)
              (if ob.direction = .asc then 1 else -1)]
          | none => [])
      ++ (match q.offset with | some n => [Stage.skipStage n] | none => [])
      ++ (match q.limit with | some n => [Stage.limitStage n] | none => [])) ∧
    mongoPlan exampleC5 = .pipeline
      [Stage.matchStage (.eqF "status" (.str "paid")),
        Stage.groupStage
          ⟨.compound [("category", "$category"), ("year", "$year")],
            [("total", .funcField "$sum" "$amount")]⟩] := by
  constructor
  · obtain ⟨ty, table, conds, lg, gb, ag, d, lim, off, ob, sel⟩ := q
    simp only at hty
    subst hty
    have htru : ag.isSome ∨ gb.isSome := hagg
    have hcond : (ag.isSome || gb.isSome) = true := by
      rcases htru with h | h <;> simp [h]
    simp only [mongoPlan, hcond, if_pos, Bool.or_eq_true]
    congr 1
    simp only [buildAggregatePipeline, mongoGroupStage, claimGroupId, claimAccs,
      claimSortField]
    congr 2
    · congr 1
      cases gb with
      | none => rfl
      | some l => cases l with
        | nil => rfl
        | cons a t => cases t <;> rfl
  · rfl

/-- C5 witness: the general shape applied at the §8 sales example. -/
theorem c5_pipeline_shape_witness :
    mongoPlan exampleC5 = .pipeline (
      (if (mongoBuildFilter exampleC5).hasKeys
        then [Stage.matchStage (mongoBuildFilter exampleC5)] else [])
      ++ [Stage.groupStage ⟨claimGroupId exampleC5, claimAccs exampleC5⟩]
      ++ []
      ++ []
      ++ []) :=
  (c5_pipeline_shape exampleC5 rfl (Or.inl rfl)).1

end Synqra

/-! ## Evaluating both lowered select forms (claim C1) -/

namespace Synqra

/-- The structured lowered form of a relational select: clause structure and
positional values, in one-to-one correspondence with the statement text
(`renderSelectS` below reproduces it exactly). -/
structure SqlSelectS where
  selectItems : List String
  table : String
  whereClauses : List SqlClause
  values : List Value
  groupBy : Option (List String)
  orderBy : Option (String × String)
  limit : Option Nat
  offset : Option Nat

/-- The structured relational select plan. -/
def pgSelectS (q : QueryAST) : SqlSelectS :=
  let r := pgWhereS q []
  { selectItems := q.select.getD [] ++ (q.aggregations.getD []).map renderAgg
    table := q.table
    whereClauses := r.1
    values := r.2
    groupBy := q.groupBy
    orderBy := q.orderBy.map (fun ob => (ob.field, dirUpper ob.direction))
    limit := q.limit
    offset := q.offset }

/-- Renders the structured select plan to statement text plus values. -/
def renderSelectS (s : SqlSelectS) : String × List Value :=
  let text :=
    if s.selectItems.length > 0 then
      "SELECT " ++ String.intercalate ", " s.selectItems ++ " FROM " ++ s.table
    else
      "SELECT * FROM " ++ s.table
  let text := text ++ renderWhereClauses s.whereClauses
  let text := text ++
    (match s.groupBy with
      | some gbl => " GROUP BY " ++ String.intercalate ", " gbl
      | none => "")
  let text := text ++
    (match s.orderBy with
      | some ob => " ORDER BY " ++ ob.1 ++ " " ++ ob.2
      | none => "")
  let text := text ++
    (match s.limit with
      | some n => " LIMIT " ++ toString n
      | none => "")
  let text := text ++
    (match s.offset with
      | some n => " OFFSET " ++ toString n
      | none => "")
  (text, s.values)

/-- The structured select plan renders to exactly the compiled statement. -/
theorem renderSelectS_eq (q : QueryAST) :
    pgBuildSelect q = renderSelectS (pgSelectS q) := by
  have hw := pgBuildWhere_link q []
  rcases hob : q.orderBy with _ | o <;>
    simp only [pgBuildSelect, renderSelectS, pgSelectS, hw, hob, Option.map_none,
      Option.map_some] <;> rfl

/-- Interprets a rendered operator symbol on values; unknown symbols (such
as `IN` used as a binary operator, which is not valid SQL) fail. -/
def evalSym (sym : String) (a b : Value) : Option Bool :=
  if sym = "=" then some (beqV a b)
  else if sym = ">" then some (cmpV a b == .gt)
  else if sym = "<" then some (cmpV a b == .lt)
  else if sym = ">=" then some (!(cmpV a b == .lt))
  else if sym = "<=" then some (!(cmpV a b == .gt))
  else none

mutual

/-- Evaluates one structured WHERE clause against a document, resolving
placeholders in the positional value list. -/
def evalClause (vals : List Value) (doc : Doc) : SqlClause → Option Bool
  | .cmp f sym i =>
    match vals.get? (i - 1) with
    | some v => evalSym sym (lookupD doc f) v
    | none => none
  | .inList f idxs =>
    match idxs.mapM (fun i => vals.get? (i - 1)) with
    | some vs => some (vs.any (beqV (lookupD doc f)))
    | none => none
  | .falseLit => some false
  | .trueLit => some true
  | .grp t cs =>
    match evalClauses vals doc cs with
    | some bs =>
      some (match t with
        | .AND => bs.all id
        | .OR => bs.any id)
    | none => none

/-- Evaluates a clause list. -/
def evalClauses (vals : List Value) (doc : Doc) : List SqlClause → Option (List Bool)
  | [] => some []
  | c :: rest =>
    match evalClause vals doc c, evalClauses vals doc rest with
    | some b, some bs => some (b :: bs)
    | _, _ => none

end

/-- Evaluates the top-level WHERE clause list (joined with `AND`). -/
def evalWhereTop (vals : List Value) (doc : Doc) (cls : List SqlClause) : Option Bool :=
  match evalClauses vals doc cls with
  | some bs => some (bs.all id)
  | none => none

/-- Filters fixture rows through the compiled WHERE clause; any clause the
engine cannot evaluate fails the whole query. -/
def filterRows (vals : List Value) (cls : List SqlClause) : List Doc → Option (List Doc)
  | [] => some []
  | d :: rest =>
    match evalWhereTop vals d cls, filterRows vals cls rest with
    | some b, some kept => some (if b then d :: kept else kept)
    | _, _ => none

/-- Strictly-before relation used by the shared stable sort. -/
def keyLt (f : String) (asc : Bool) (d1 d2 : Doc) : Bool :=
  if asc then cmpV (lookupD d1 f) (lookupD d2 f) == .lt
  else cmpV (lookupD d1 f) (lookupD d2 f) == .gt

/-- Stable insertion into a sorted row list. -/
def insertSorted (lt : Doc → Doc → Bool) (x : Doc) : List Doc → List Doc
  | [] => [x]
  | y :: ys => if lt y x then y :: insertSorted lt x ys else x :: y :: ys

/-- The shared stable sort on rows by one field. -/
def sortDocs (f : String) (asc : Bool) (rows : List Doc) : List Doc :=
  rows.foldr (insertSorted (keyLt f asc)) []

/-- Evaluates the structured relational select plan on fixture rows. -/
def evalSqlSelect (s : SqlSelectS) (rows : List Doc) : Option (List Doc) :=
  match filterRows s.values s.whereClauses rows with
  | none => none
  | some kept =>
    let sorted :=
      match s.orderBy with
      | some ob => sortDocs ob.1 (ob.2 == "ASC") kept
      | none => kept
    let paged :=
      match s.offset with
      | some n => sorted.drop n
      | none => sorted
    let paged :=
      match s.limit with
      | some n => paged.take n
      | none => paged
    some (paged.map (fun d =>
      match s.selectItems with
      | [] => d
      | fs => fs.map (fun f => (f, lookupD d f))))

/-- Applies a find projection document to a row: an absent or empty
projection returns the whole row, otherwise the listed fields are kept. -/
def projDoc : Option (List (String × Nat)) → Doc → Doc
  | none, d => d
  | some [], d => d
  | some (p :: ps), d => d.filter (fun kv => (p :: ps).contains (kv.1, 1))

/-- Evaluates the lowered document find (filter plus options) on fixture
rows: filter, then sort, then skip, then limit, then projection. -/
def evalMongoFind (filter : MFilter) (o : MongoFindOptions) (rows : List Doc) :
    List Doc :=
  let kept := rows.filter (fun d => matchF d filter)
  let sorted :=
    match o.sort with
    | some s => sortDocs s.1 (s.2 == 1) kept
    | none => kept
  let skipped :=
    match o.skip with
    | some n => sorted.drop n
    | none => sorted
  let limited :=
    match o.limit with
    | some n => skipped.take n
    | none => skipped
  limited.map (projDoc o.projection)

/-- Two rows are equivalent when every field reads the same value. -/
def rowEquiv (d1 d2 : Doc) : Prop := ∀ f, lookupD d1 f = lookupD d2 f

/-- An `in` condition the relational compiler can lower to valid SQL: its
value must be an array (a scalar falls through to `field IN $n`, which is
not valid SQL). -/
def okCondB (c : Condition) : Bool :=
  match c.operator, c.value with
  | .isin, .arr _ => true
  | .isin, _ => false
  | _, _ => true

mutual

/-- All `in` conditions in a logical-condition tree carry array values. -/
def okLC : LogicalCondition → Bool
  | .cond c => okCondB c
  | .group _ gcs => okLCs gcs

/-- All `in` conditions in a child list carry array values. -/
def okLCs : List LogicalCondition → Bool
  | [] => true
  | c :: rest => okLC c && okLCs rest

end

/-- All `in` conditions of the query carry array values. -/
def okQueryB (q : QueryAST) : Bool :=
  (q.conditions.getD []).all okCondB &&
    (q.logical.getD []).all (fun g => okLCs g.2)

end Synqra

namespace Synqra

theorem get_mid (vs : List Value) (v : Value) (ws : List Value) :
    (vs ++ [v] ++ ws).get? vs.length = some v := by
  rw [List.get?_eq_getElem?,
    List.getElem?_append_left (by simp), List.getElem?_concat_length]

theorem mapM_get_range (xs : List Value) : ∀ (vs ws : List Value),
    (List.range' (vs.length + 1) xs.length).mapM
      (fun i => (vs ++ xs ++ ws).get? (i - 1)) = some xs := by
  induction xs with
  | nil => intro vs ws; rfl
  | cons x xs ih =>
    intro vs ws
    rw [List.length_cons, List.range'_succ, List.mapM_cons]
    have h1 : vs ++ (x :: xs) ++ ws = (vs ++ [x]) ++ xs ++ ws := by simp
    have h2 : vs.length + 1 + 1 = (vs ++ [x]).length + 1 := by simp
    have hx : ((vs ++ [x]) ++ xs ++ ws).get? (vs.length + 1 - 1) = some x := by
      rw [Nat.add_sub_cancel]
      have e : (vs ++ [x]) ++ xs ++ ws = vs ++ [x] ++ (xs ++ ws) := by simp
      rw [e, get_mid]
    rw [h1, h2, hx, ih (vs ++ [x]) ws]
    rfl

/-- Evaluating the compiled clause of one flat condition with an array-valued
`in` (or any other operator) under the final value list agrees with the
document-side match of the same condition. -/
theorem evalCond_eq (c : Condition) (hok : okCondB c = true)
    (vs ws : List Value) (doc : Doc) :
    evalClause (vs ++ condVals c ++ ws) doc (pgCondS c vs).1 =
      some (matchF doc (mongoBuildCondition c)) := by
  rcases c with ⟨f, op, v⟩
  have hv1 : ∀ w : Value, (vs ++ [w] ++ ws).get? (vs.length + 1 - 1) = some w := by
    intro w; rw [Nat.add_sub_cancel, get_mid]
  cases op <;> cases v
  all_goals try (simp [okCondB] at hok)
  all_goals try (simp only [pgCondS, condVals, evalClause]
                 rw [hv1]
                 simp [evalSym, mapOperator, mongoBuildCondition, matchF, cmpOp]
                 done)
  case isin.arr xs =>
    by_cases hxs : xs.isEmpty
    · have hx : xs = [] := List.isEmpty_iff.mp hxs
      subst hx
      simp [pgCondS, condVals, evalClause, mongoBuildCondition, matchF]
    · simp only [pgCondS, condVals, hxs, Bool.false_eq_true, if_false,
        evalClause, mongoBuildCondition, matchF]
      rw [mapM_get_range xs vs ws]

end Synqra

namespace Synqra

theorem matchFL_eq_all (doc : Doc) : ∀ fs : List MFilter,
    matchFL doc fs = (fs.map (matchF doc)).all id
  | [] => by simp [matchFL]
  | f :: rest => by
    rw [matchFL, matchFL_eq_all doc rest]
    simp

theorem matchFLor_eq_any (doc : Doc) : ∀ fs : List MFilter,
    matchFLor doc fs = (fs.map (matchF doc)).any id
  | [] => by simp [matchFLor]
  | f :: rest => by
    rw [matchFLor, matchFLor_eq_any doc rest]
    simp

theorem mongoBuildChildren_eq_map : ∀ cs : List LogicalCondition,
    mongoBuildChildren cs = cs.map mongoBuildChild
  | [] => rfl
  | c :: rest => by
    rw [mongoBuildChildren, mongoBuildChildren_eq_map rest, List.map_cons]

mutual

/-- Evaluating the compiled clause of one logical-group child under the
final value list agrees with the document-side match. -/
theorem evalChild_eq : ∀ (lc : LogicalCondition), okLC lc = true →
    ∀ (vs ws : List Value) (doc : Doc),
    evalClause (vs ++ lcVals lc ++ ws) doc (pgChildS lc vs).1 =
      some (matchF doc (mongoBuildChild lc))
  | .cond c, h, vs, ws, doc => by
    simp only [pgChildS, lcVals, mongoBuildChild]
    exact evalCond_eq c (by simpa [okLC] using h) vs ws doc
  | .group t [], h, vs, ws, doc => by
    cases t <;>
      simp [pgChildS, lcVals, lcsVals, mongoBuildChild, evalClause, matchF]
  | .group t (hd :: tl), h, vs, ws, doc => by
    have ih := evalChildren_eq (hd :: tl) (by simpa [okLC] using h) vs ws doc
    have hlv : lcVals (.group t (hd :: tl)) = lcsVals (hd :: tl) := rfl
    cases t <;>
      simp only [pgChildS, hlv, mongoBuildChild, evalClause, ih, matchF,
        matchFL_eq_all, matchFLor_eq_any, mongoBuildChildren_eq_map]

/-- Evaluating a compiled child list under the final value list agrees with
the document-side match of each child. -/
theorem evalChildren_eq : ∀ (cs : List LogicalCondition), okLCs cs = true →
    ∀ (vs ws : List Value) (doc : Doc),
    evalClauses (vs ++ lcsVals cs ++ ws) doc (pgChildrenS cs vs).1 =
      some ((mongoBuildChildren cs).map (matchF doc))
  | [], h, vs, ws, doc => by
    simp [pgChildrenS, lcsVals, evalClauses, mongoBuildChildren]
  | c :: rest, h, vs, ws, doc => by
    obtain ⟨h1, h2⟩ : okLC c = true ∧ okLCs rest = true := by
      simpa [okLCs, Bool.and_eq_true] using h
    have ihc := evalChild_eq c h1 vs (lcsVals rest ++ ws) doc
    have ihr := evalChildren_eq rest h2 (vs ++ lcVals c) ws doc
    have hsnd := pgChildS_snd c vs
    have hv : vs ++ lcVals c ++ (lcsVals rest ++ ws) =
        vs ++ lcsVals (c :: rest) ++ ws := by simp [lcsVals]
    have hv2 : (vs ++ lcVals c) ++ lcsVals rest ++ ws =
        vs ++ lcsVals (c :: rest) ++ ws := by simp [lcsVals]
    rw [hv] at ihc
    rw [hv2] at ihr
    rw [← hsnd] at ihr
    simp only [pgChildrenS, evalClauses, mongoBuildChildren, List.map_cons,
      ihc, ihr]

end

end Synqra

namespace Synqra

theorem evalCondList_eq : ∀ (cs : List Condition), cs.all okCondB = true →
    ∀ (vs ws : List Value) (doc : Doc),
    evalClauses (vs ++ cs.flatMap condVals ++ ws) doc (pgCondListS cs vs).1 =
      some (cs.map (fun c => matchF doc (mongoBuildCondition c)))
  | [], h, vs, ws, doc => by simp [pgCondListS, evalClauses]
  | c :: rest, h, vs, ws, doc => by
    obtain ⟨h1, h2⟩ : okCondB c = true ∧ rest.all okCondB = true := by
      simpa [List.all_cons, Bool.and_eq_true] using h
    have ihc := evalCond_eq c h1 vs (rest.flatMap condVals ++ ws) doc
    have ihr := evalCondList_eq rest h2 (vs ++ condVals c) ws doc
    have hsnd := pgCondS_snd c vs
    have hv : vs ++ condVals c ++ (rest.flatMap condVals ++ ws) =
        vs ++ (c :: rest).flatMap condVals ++ ws := by simp
    have hv2 : (vs ++ condVals c) ++ rest.flatMap condVals ++ ws =
        vs ++ (c :: rest).flatMap condVals ++ ws := by simp
    rw [hv] at ihc
    rw [hv2] at ihr
    rw [← hsnd] at ihr
    simp only [pgCondListS, evalClauses, List.map_cons, ihc, ihr]

theorem evalGroupList_eq : ∀ (gs : List LogicalGroup),
    gs.all (fun g => okLCs g.2) = true →
    ∀ (vs ws : List Value) (doc : Doc),
    evalClauses (vs ++ gs.flatMap (fun g => lcsVals g.2) ++ ws) doc
        (pgGroupListS gs vs).1 =
      some (gs.map (fun g => matchF doc (mongoBuildLogicalGroup g.1 g.2)))
  | [], h, vs, ws, doc => by simp [pgGroupListS, evalClauses]
  | (t, cs) :: rest, h, vs, ws, doc => by
    obtain ⟨h1, h2⟩ : okLCs cs = true ∧ rest.all (fun g => okLCs g.2) = true := by
      simpa [List.all_cons, Bool.and_eq_true] using h
    have ihc := evalChild_eq (.group t cs) (by simpa [okLC] using h1) vs
      ((rest.flatMap fun g => lcsVals g.2) ++ ws) doc
    have ihr := evalGroupList_eq rest h2 (vs ++ lcsVals cs) ws doc
    have hsnd := pgGroupS_snd t cs vs
    have hlv : lcVals (.group t cs) = lcsVals cs := rfl
    rw [hlv] at ihc
    have hv : vs ++ lcsVals cs ++ ((rest.flatMap fun g => lcsVals g.2) ++ ws) =
        vs ++ ((t, cs) :: rest).flatMap (fun g => lcsVals g.2) ++ ws := by simp
    have hv2 : (vs ++ lcsVals cs) ++ (rest.flatMap fun g => lcsVals g.2) ++ ws =
        vs ++ ((t, cs) :: rest).flatMap (fun g => lcsVals g.2) ++ ws := by simp
    rw [hv] at ihc
    rw [hv2] at ihr
    rw [← hsnd] at ihr
    rw [← pgGroupS_eq] at ihc
    simp only [pgGroupListS, evalClauses, List.map_cons, ihc, ihr,
      mongoBuildChild_group]

theorem evalClauses_append (vals : List Value) (doc : Doc) :
    ∀ (a b : List SqlClause),
    evalClauses vals doc (a ++ b) =
      (match evalClauses vals doc a, evalClauses vals doc b with
        | some x, some y => some (x ++ y)
        | _, _ => none)
  | [], b => by
    cases hb : evalClauses vals doc b <;> simp [evalClauses, hb]
  | c :: rest, b => by
    rw [List.cons_append, evalClauses, evalClauses,
      evalClauses_append vals doc rest b]
    cases hc : evalClause vals doc c <;>
      cases hr : evalClauses vals doc rest <;>
      cases hb : evalClauses vals doc b <;> simp

theorem matchF_mongoCombine (doc : Doc) (l : List MFilter) :
    matchF doc (mongoCombine l) = (l.map (matchF doc)).all id := by
  match l with
  | [] => simp [mongoCombine, matchF]
  | [c] => simp [mongoCombine]
  | c1 :: c2 :: rest => simp [mongoCombine, matchF, matchFL_eq_all]

/-- Evaluating the whole compiled WHERE clause of a query against any
document agrees with the document-side match of the compiled filter. -/
theorem evalWhere_eq (q : QueryAST) (hok : okQueryB q = true) (doc : Doc) :
    evalWhereTop (pgWhereS q []).2 doc (pgWhereS q []).1 =
      some (matchF doc (mongoBuildFilter q)) := by
  obtain ⟨hc, hg⟩ : (q.conditions.getD []).all okCondB = true ∧
      (q.logical.getD []).all (fun g => okLCs g.2) = true := by
    simpa [okQueryB, Bool.and_eq_true] using hok
  have hsnd := pgWhereS_snd q []
  have hcl := evalCondList_eq (q.conditions.getD []) hc []
    ((q.logical.getD []).flatMap fun g => lcsVals g.2) doc
  have hgl := evalGroupList_eq (q.logical.getD []) hg
    ((q.conditions.getD []).flatMap condVals) [] doc
  have hv1 : ([] : List Value) ++ (q.conditions.getD []).flatMap condVals ++
      ((q.logical.getD []).flatMap fun g => lcsVals g.2) = (pgWhereS q []).2 := by
    rw [hsnd]; simp [whereVals]
  have hv2 : (q.conditions.getD []).flatMap condVals ++
      ((q.logical.getD []).flatMap fun g => lcsVals g.2) ++ [] = (pgWhereS q []).2 := by
    rw [hsnd]; simp [whereVals]
  rw [hv1] at hcl
  rw [hv2] at hgl
  have hcsnd := pgCondListS_snd (q.conditions.getD []) []
  simp only [List.nil_append] at hcsnd
  rw [← hcsnd] at hgl
  have hcls : (pgWhereS q []).1 =
      (pgCondListS (q.conditions.getD []) []).1 ++
        (pgGroupListS (q.logical.getD [])
          (pgCondListS (q.conditions.getD []) []).2).1 := rfl
  rw [evalWhereTop, hcls, evalClauses_append, hcl, hgl]
  simp [mongoBuildFilter, matchF_mongoCombine, List.map_append, List.map_map,
    Function.comp_def]

/-- Filtering fixture rows through the compiled WHERE clause succeeds and
keeps exactly the rows the compiled document filter matches. -/
theorem filterRows_eq (q : QueryAST) (hok : okQueryB q = true) :
    ∀ rows : List Doc,
    filterRows (pgWhereS q []).2 (pgWhereS q []).1 rows =
      some (rows.filter (fun d => matchF d (mongoBuildFilter q)))
  | [] => by simp [filterRows]
  | d :: rest => by
    rw [filterRows, evalWhere_eq q hok d, filterRows_eq q hok rest]
    cases h : matchF d (mongoBuildFilter q) <;> simp [List.filter_cons, h]

end Synqra

namespace Synqra

theorem lookup_map_fields (d : Doc) (g : String) : ∀ (l : List String),
    List.lookup g (l.map (fun f => (f, lookupD d f))) =
      if l.contains g then some (lookupD d g) else none
  | [] => by simp
  | f :: rest => by
    rw [List.map_cons]
    by_cases h : g = f
    · subst h
      simp [List.lookup]
    · have hbf : (g == f) = false := by simpa using h
      simp [List.lookup, hbf, lookup_map_fields d g rest, List.contains_cons, h]

theorem lookup_filter_keys (P : String → Bool) (g : String) : ∀ (d : Doc),
    List.lookup g (d.filter (fun kv => P kv.1)) =
      if P g then List.lookup g d else none
  | [] => by simp
  | (a, v) :: rest => by
    by_cases hg : g = a
    · subst hg
      by_cases hp : P g
      · simp [List.filter_cons, hp, List.lookup]
      · simp [List.filter_cons, hp, List.lookup, lookup_filter_keys P g rest]
    · have hbf : (g == a) = false := by simpa using hg
      by_cases hp : P a <;>
        simp [List.filter_cons, hp, List.lookup, hbf, lookup_filter_keys P g rest]

theorem contains_pairs (a : String) : ∀ (l : List String),
    (l.map (fun f => (f, (1 : Nat)))).contains (a, 1) = l.contains a
  | [] => rfl
  | f :: rest => by
    simp [List.contains_cons, contains_pairs a rest]

theorem lookupD_map_fields (d : Doc) (g : String) (l : List String) :
    lookupD (l.map (fun f => (f, lookupD d f))) g =
      if l.contains g then lookupD d g else Value.null :=
  calc lookupD (l.map (fun f => (f, lookupD d f))) g
      = (match List.lookup g (l.map (fun f => (f, lookupD d f))) with
          | some v => v
          | none => Value.null) := rfl
    _ = (match (if l.contains g then some (lookupD d g) else none) with
          | some v => v
          | none => Value.null) := by rw [lookup_map_fields]
    _ = if l.contains g then lookupD d g else Value.null := by
          by_cases hc : g ∈ l <;> simp [hc]

theorem lookupD_filter_keys (P : String → Bool) (g : String) (d : Doc) :
    lookupD (d.filter (fun kv => P kv.1)) g =
      if P g then lookupD d g else Value.null :=
  calc lookupD (d.filter (fun kv => P kv.1)) g
      = (match List.lookup g (d.filter (fun kv => P kv.1)) with
          | some v => v
          | none => Value.null) := rfl
    _ = (match (if P g then List.lookup g d else none) with
          | some v => v
          | none => Value.null) := by rw [lookup_filter_keys]
    _ = if P g then lookupD d g else Value.null := by
          by_cases hp : P g <;> simp [hp, lookupD]

/-- Projecting a row on the relational side (ordered column list) and on the
document side (projection document) reads the same value at every field. -/
theorem proj_equiv (sel : Option (List String)) (d : Doc) :
    rowEquiv
      (match sel.getD [] with
        | [] => d
        | fs => fs.map (fun f => (f, lookupD d f)))
      (projDoc (sel.map (fun fs => fs.map (fun f => (f, 1)))) d) := by
  intro g
  cases sel with
  | none => rfl
  | some fs =>
    cases fs with
    | nil => rfl
    | cons f rest =>
      show lookupD ((f :: rest).map (fun x => (x, lookupD d x))) g =
        lookupD (d.filter (fun kv =>
          ((f :: rest).map (fun x => (x, (1 : Nat)))).contains (kv.1, 1))) g
      rw [lookupD_map_fields,
        lookupD_filter_keys
          (fun a => ((f :: rest).map (fun x => (x, (1 : Nat)))).contains (a, 1)) g d,
        contains_pairs]

theorem forall₂_map_rows (fA fB : Doc → Doc) (h : ∀ d, rowEquiv (fA d) (fB d)) :
    ∀ (l : List Doc), List.Forall₂ rowEquiv (l.map fA) (l.map fB)
  | [] => List.Forall₂.nil
  | d :: rest => List.Forall₂.cons (h d) (forall₂_map_rows fA fB h rest)

end Synqra

namespace Synqra

/-- C1 (amended): for every select AST without grouping and aggregation
whose `in` conditions all carry array values, the structured relational
plan renders to the exact compiled statement, the document plan is the
filter-plus-options find, and evaluating both lowered forms against the
same fixture rows succeeds and yields pointwise-equivalent row lists (same
count, same field values, same order — in particular whenever `orderBy` is
set). -/
theorem c1_select_parity (q : QueryAST) (hty : q.type = .select)
    (hgb : q.groupBy = none) (hagg : q.aggregations = none)
    (hok : okQueryB q = true) (rows : List Doc) :
    pgBuildSelect q = renderSelectS (pgSelectS q) ∧
    mongoPlan q = .find (mongoBuildFilter q) (mongoFindOptions q) ∧
    ∃ out, evalSqlSelect (pgSelectS q) rows = some out ∧
      List.Forall₂ rowEquiv out
        (evalMongoFind (mongoBuildFilter q) (mongoFindOptions q) rows) := by
  refine ⟨renderSelectS_eq q, ?_, ?_⟩
  · obtain ⟨ty, table, conds, lg, gb, ag, d, lim, off, ob, sel⟩ := q
    simp only at hty hgb hagg
    subst hty; subst hgb; subst hagg
    simp [mongoPlan]
  · have hfr : filterRows (pgSelectS q).values (pgSelectS q).whereClauses rows =
        some (rows.filter (fun d => matchF d (mongoBuildFilter q))) :=
      filterRows_eq q hok rows
    simp only [evalSqlSelect]
    rw [hfr]
    refine ⟨_, rfl, ?_⟩
    simp only [evalMongoFind]
    have hsel : (pgSelectS q).selectItems = q.select.getD [] := by
      simp [pgSelectS, hagg]
    have hos : (pgSelectS q).orderBy =
        q.orderBy.map (fun o => (o.field, dirUpper o.direction)) := rfl
    have hom : (mongoFindOptions q).sort =
        q.orderBy.map (fun o => (o.field, if o.direction = .asc then 1 else -1)) := rfl
    have hproj : ∀ dd : Doc,
        rowEquiv
          (match q.select.getD [] with
            | [] => dd
            | fs => fs.map (fun f => (f, lookupD dd f)))
          (projDoc ((mongoFindOptions q).projection) dd) :=
      fun dd => proj_equiv q.select dd
    rw [hsel, hos, hom,
      show (pgSelectS q).limit = q.limit from rfl,
      show (pgSelectS q).offset = q.offset from rfl,
      show (mongoFindOptions q).limit = q.limit from rfl,
      show (mongoFindOptions q).skip = q.offset from rfl]
    rcases hob : q.orderBy with _ | ⟨obf, obd⟩
    · exact forall₂_map_rows _ _ hproj _
    · cases obd <;> exact forall₂_map_rows _ _ hproj _
end Synqra

namespace Synqra

/-- A concrete select with a comparison, an array `in`, ordering, a limit
and a projection. -/
def exampleC1 : QueryAST :=
  { type := .select, table := "users",
    conditions := some [⟨"age", .gt, .int 18⟩,
      ⟨"status", .isin, .arr [.str "active", .str "pending"]⟩],
    orderBy := some ⟨"age", .asc⟩, limit := some 2,
    select := some ["name", "age"] }

/-- Fixture rows for the parity witness. -/
def rowsC1 : List Doc :=
  [[("name", .str "a"), ("age", .int 30), ("status", .str "active")],
   [("name", .str "b"), ("age", .int 10), ("status", .str "active")],
   [("name", .str "c"), ("age", .int 25), ("status", .str "closed")],
   [("name", .str "d"), ("age", .int 40), ("status", .str "pending")]]

/-- C1 witness: the parity theorem applied at a concrete query and fixture. -/
theorem c1_select_parity_witness :
    pgBuildSelect exampleC1 = renderSelectS (pgSelectS exampleC1) ∧
    mongoPlan exampleC1 =
      .find (mongoBuildFilter exampleC1) (mongoFindOptions exampleC1) ∧
    ∃ out, evalSqlSelect (pgSelectS exampleC1) rowsC1 = some out ∧
      List.Forall₂ rowEquiv out
        (evalMongoFind (mongoBuildFilter exampleC1) (mongoFindOptions exampleC1)
          rowsC1) :=
  c1_select_parity exampleC1 rfl rfl rfl rfl rowsC1

/-- A select whose `in` condition carries a scalar, not an array. -/
def exampleC1bad : QueryAST :=
  { type := .select, table := "t", conditions := some [⟨"f", .isin, .int 3⟩] }

/-- Fixture for the parity counterexample. -/
def rowsC1bad : List Doc := [[("f", Value.int 3)]]

/-- C1 counterexample: for an `in` condition with a non-array value the
relational compiler renders `f IN $1`, which is not valid SQL, so the
lowered relational form fails to evaluate, while the document compiler
wraps the scalar into a one-element `$in` array and returns the matching
row: the two lowered forms do not yield equal row sets, refuting the claim
as stated for arbitrary select ASTs. -/
theorem c1_counterexample :
    pgBuildCondition ⟨"f", .isin, .int 3⟩ [] = ("f IN $1", [Value.int 3]) ∧
    evalSqlSelect (pgSelectS exampleC1bad) rowsC1bad = none ∧
    evalMongoFind (mongoBuildFilter exampleC1bad) (mongoFindOptions exampleC1bad)
        rowsC1bad = [[("f", Value.int 3)]] ∧
    ¬ ∃ out, evalSqlSelect (pgSelectS exampleC1bad) rowsC1bad = some out ∧
        List.Forall₂ rowEquiv out
          (evalMongoFind (mongoBuildFilter exampleC1bad)
            (mongoFindOptions exampleC1bad) rowsC1bad) := by
  refine ⟨rfl, rfl, rfl, ?_⟩
  rintro ⟨out, h, _⟩
  rw [show evalSqlSelect (pgSelectS exampleC1bad) rowsC1bad = none from rfl] at h
  cases h

end Synqra

/-! ## The execute path of the router (`src/synqra.ts`, `SynqraQuery.execute`)
and the migration planners (`planSync` / `sync` of both adapters) -/

namespace Synqra

/-- The observable steps of one `SynqraQuery.execute` call. -/
inductive ExecEvent where
  | planned
  | validated
  | validationFailed
  | executed
  | observed
  deriving DecidableEq, Repr

/-- `SynqraQuery.execute` as an event trace: the source calls
`adapter.plan(query)` first, then `validateQuery` (whose exception aborts
the call), then `adapter.execute` (the backend round trip), then the
observers. -/
def executeModel (q : QueryAST) (caps : AdapterCapabilities) :
    List ExecEvent × Except CapabilityError Unit :=
  match validateQuery q caps with
  | .ok _ => ([.planned, .validated, .executed, .observed], .ok ())
  | .error e => ([.planned, .validationFailed], .error e)

/-- An aggregation AST used against a capability set without aggregation. -/
def exampleC6 : QueryAST :=
  { type := .select, table := "sales", aggregations := some [⟨.count, "id", none⟩] }

/-- C6 counterexample: on an AST the validator rejects, the trace starts
with the plan step and only then records the validation failure — the
compiler lowers the AST before the capability validator runs, contradicting
the claimed validate-then-lower order. -/
theorem c6_counterexample :
    (executeModel exampleC6 ⟨true, false, false, true⟩).1 =
      [ExecEvent.planned, ExecEvent.validationFailed] ∧
    (executeModel exampleC6 ⟨true, false, false, true⟩).1.head? =
      some ExecEvent.planned ∧
    (executeModel exampleC6 ⟨true, false, false, true⟩).2 =
      .error ⟨"Adapter does not support aggregations"⟩ :=
  ⟨rfl, rfl, rfl⟩

/-- C6 (amended): for every execution, the backend compiler lowers the AST
first, then the capability validator runs; a `CapabilityError` aborts the
call before the backend execute step, so no backend I/O and no observer
call happens on a rejected AST, and on an accepted AST the order is
plan, validate, execute, observe. -/
theorem c6_execute_order (q : QueryAST) (caps : AdapterCapabilities) :
    (validationRejects q caps = false →
      executeModel q caps =
        ([.planned, .validated, .executed, .observed], .ok ())) ∧
    (∀ e, validateQuery q caps = .error e →
      executeModel q caps = ([.planned, .validationFailed], .error e)) ∧
    (validationRejects q caps = true →
      ExecEvent.executed ∉ (executeModel q caps).1 ∧
      (executeModel q caps).1.head? = some ExecEvent.planned) := by
  refine ⟨?_, ?_, ?_⟩
  · intro h
    unfold executeModel
    unfold validationRejects at h
    cases hv : validateQuery q caps with
    | ok b => rfl
    | error e => rw [hv] at h; simp at h
  · intro e he
    unfold executeModel
    rw [he]
  · intro h
    unfold executeModel
    unfold validationRejects at h
    cases hv : validateQuery q caps with
    | ok b => rw [hv] at h; simp at h
    | error e => simp

/-- C6 witness: the amended order at the rejecting input and at an
accepting one. -/
theorem c6_execute_order_witness :
    executeModel exampleC6 ⟨true, false, false, true⟩ =
      ([.planned, .validationFailed],
        .error ⟨"Adapter does not support aggregations"⟩) ∧
    executeModel exampleC6 ⟨true, true, false, true⟩ =
      ([.planned, .validated, .executed, .observed], .ok ()) :=
  ⟨(c6_execute_order exampleC6 ⟨true, false, false, true⟩).2.1 _ rfl,
    (c6_execute_order exampleC6 ⟨true, true, false, true⟩).1 rfl⟩

end Synqra

namespace Synqra

/-- Logical field type tags (`FieldType` in `src/core/schema.ts`). -/
inductive FieldType where
  | string | number | boolean | date | object | array
  deriving DecidableEq, Repr

/-- A field declaration: either the plain type tag or the object form with
flags (`FieldType | { type, default?, required? }`). -/
inductive FieldDef where
  | simple (t : FieldType)
  | detailed (t : FieldType) (required : Bool)
  deriving DecidableEq, Repr

/-- The type tag of a declaration
(`typeof def === "string" ? def : def.type`). -/
def FieldDef.fieldType : FieldDef → FieldType
  | .simple t => t
  | .detailed t _ => t

/-- A logical model schema (name, table, declared fields in order). -/
structure ModelSchema where
  name : String
  table : String
  fields : List (String × FieldDef)
  deriving DecidableEq, Repr

/-- The fixed relational type map of `planSync`. -/
def typeMap : FieldType → String
  | .string => "VARCHAR(255)"
  | .number => "FLOAT"
  | .boolean => "BOOLEAN"
  | .date => "TIMESTAMP"
  | .object => "JSONB"
  | .array => "JSONB"

/-- One introspected physical table: its name and column names. -/
structure PhysTable where
  name : String
  columns : List String
  deriving DecidableEq, Repr

/-- The introspected physical schema (the information-schema snapshot the
planner queries). -/
abbrev PhysSchema := List PhysTable

/-- Whether the introspection reports the table as existing. -/
def tableExists (phys : PhysSchema) (t : String) : Bool :=
  phys.any (fun pt => pt.name == t)

/-- The introspected column names of a table. -/
def columnsOf (phys : PhysSchema) (t : String) : List String :=
  match phys.find? (fun pt => pt.name == t) with
  | some pt => pt.columns
  | none => []

/-- The column list of a `CREATE TABLE`: the id primary key first, then one
column per declared non-id field with its mapped type. -/
def pgCreateColumns (fields : List (String × FieldDef)) : List String :=
  "id SERIAL PRIMARY KEY" ::
    (fields.filter (fun fd => !(fd.1 == "id"))).map
      (fun fd => "\"" ++ fd.1 ++ "\" " ++ typeMap fd.2.fieldType)

/-- The operations and logs `planSync` emits for one model: a single
`CREATE TABLE` when the table is absent, one `ADD COLUMN` per declared
non-id field missing from the introspected columns when it is present. -/
def pgPlanModel (phys : PhysSchema) (m : ModelSchema) : List String × List String :=
  if tableExists phys m.table then
    let existingColumns := columnsOf phys m.table
    let missing := m.fields.filter
      (fun fd => !(fd.1 == "id") && !(existingColumns.contains fd.1))
    (missing.map (fun fd => "ALTER TABLE \"" ++ m.table ++ "\" ADD COLUMN \"" ++
        fd.1 ++ "\" " ++ typeMap fd.2.fieldType ++ ";"),
      missing.map (fun fd => "[Postgres] Planner appended column: " ++ fd.1 ++
        " on " ++ m.table))
  else
    (["CREATE TABLE \"" ++ m.table ++ "\" (" ++
        String.intercalate ", " (pgCreateColumns m.fields) ++ ");"],
      ["[Postgres] Planner created table: " ++ m.table])

/-- A relational migration plan (type tag `sql` in the source). -/
structure PgMigrationPlan where
  operations : List String
  logs : List String
  deriving DecidableEq, Repr

/-- `PostgresAdapter.planSync` over an introspected snapshot. -/
def planSyncPg (models : List ModelSchema) (phys : PhysSchema) : PgMigrationPlan :=
  { operations := models.flatMap (fun m => (pgPlanModel phys m).1)
    logs := models.flatMap (fun m => (pgPlanModel phys m).2) }

/-- Modelled from the claim wording, parametrised by the type table and by
whether the ADD COLUMN branch skips the declared `id` field: the original
claim maps object and array to `JSON` and adds a column for every declared
missing field (`skipId = false`); the code maps them to `JSONB` and skips
`id` (`skipId = true`). -/
def planSyncPgSpec (tm : FieldType → String) (skipId : Bool)
    (models : List ModelSchema) (phys : PhysSchema) : List String :=
  models.flatMap (fun m =>
    if tableExists phys m.table then
      (m.fields.filter (fun fd =>
          (!skipId || !(fd.1 == "id")) &&
            !((columnsOf phys m.table).contains fd.1))).map
        (fun fd => "ALTER TABLE \"" ++ m.table ++ "\" ADD COLUMN \"" ++
          fd.1 ++ "\" " ++ tm fd.2.fieldType ++ ";")
    else
      ["CREATE TABLE \"" ++ m.table ++ "\" (" ++
        String.intercalate ", "
          ("id SERIAL PRIMARY KEY" ::
            (m.fields.filter (fun fd => !(fd.1 == "id"))).map
              (fun fd => "\"" ++ fd.1 ++ "\" " ++ tm fd.2.fieldType)) ++ ");"])

/-- The fixed type table exactly as the original claim words it
(object/array mapped to `JSON`). -/
def claimTypeMap : FieldType → String
  | .string => "VARCHAR(255)"
  | .number => "FLOAT"
  | .boolean => "BOOLEAN"
  | .date => "TIMESTAMP"
  | .object => "JSON"
  | .array => "JSON"

/-- A model with an object field whose table is absent. -/
def modelC8a : ModelSchema := ⟨"M1", "t1", [("meta", .simple .object)]⟩

/-- A model declaring only `id`, whose table exists without that column. -/
def modelC8b : ModelSchema := ⟨"M2", "t2", [("id", .simple .string)]⟩

/-- The introspected snapshot for the counterexample. -/
def physC8 : PhysSchema := [⟨"t2", ["x"]⟩]

/-- C8 counterexample: at a concrete schema set the planner emits
`"meta" JSONB` (not `JSON` as the claim's type table says) and emits no
`ADD COLUMN` for a declared but missing `id` column (the claim's ADD branch
would add one). -/
theorem c8_counterexample :
    (planSyncPg [modelC8a, modelC8b] physC8).operations =
      ["CREATE TABLE \"t1\" (id SERIAL PRIMARY KEY, \"meta\" JSONB);"] ∧
    planSyncPgSpec claimTypeMap false [modelC8a, modelC8b] physC8 =
      ["CREATE TABLE \"t1\" (id SERIAL PRIMARY KEY, \"meta\" JSON);",
        "ALTER TABLE \"t2\" ADD COLUMN \"id\" VARCHAR(255);"] ∧
    (planSyncPg [modelC8a, modelC8b] physC8).operations ≠
      planSyncPgSpec claimTypeMap false [modelC8a, modelC8b] physC8 :=
  ⟨rfl, rfl, by decide⟩

/-- Every declared non-id field of every model is present in the
introspected schema. -/
def syncedB (models : List ModelSchema) (phys : PhysSchema) : Bool :=
  models.all (fun m => tableExists phys m.table &&
    m.fields.all (fun fd =>
      (fd.1 == "id") || (columnsOf phys m.table).contains fd.1))

/-- C8 (amended): the planner emits exactly the operations of the claim
shape with object/array mapped to `JSONB` and the `id` field skipped in the
ADD COLUMN branch as well; consequently a planning run against an
already-synced schema set emits no operations and no logs. -/
theorem c8_plan_shape (models : List ModelSchema) (phys : PhysSchema) :
    (planSyncPg models phys).operations =
      planSyncPgSpec typeMap true models phys ∧
    (syncedB models phys = true →
      (planSyncPg models phys).operations = [] ∧
      (planSyncPg models phys).logs = []) := by
  constructor
  · unfold planSyncPg planSyncPgSpec
    simp only
    congr 1
    funext m
    unfold pgPlanModel pgCreateColumns
    by_cases h : tableExists phys m.table <;> simp [h]
  · intro hs
    unfold planSyncPg
    simp only [List.flatMap_eq_nil_iff]
    rw [syncedB, List.all_eq_true] at hs
    constructor <;>
      · intro m hm
        obtain ⟨he, hf⟩ : tableExists phys m.table = true ∧
            m.fields.all (fun fd =>
              (fd.1 == "id") || (columnsOf phys m.table).contains fd.1) = true := by
          simpa [Bool.and_eq_true] using hs m hm
        rw [List.all_eq_true] at hf
        unfold pgPlanModel
        rw [if_pos he]
        simp only [List.map_eq_nil_iff, List.filter_eq_nil_iff]
        intro fd hfd
        have h2 : fd.1 = "id" ∨ fd.1 ∈ columnsOf phys m.table := by
          simpa using hf fd hfd
        rcases h2 with h1 | h1 <;> simp [h1]

/-- C8 witness: the amended shape and the idempotence consequence at a
synced concrete schema set. -/
theorem c8_plan_shape_witness :
    (planSyncPg [modelC8a] [⟨"t1", ["id", "meta"]⟩]).operations =
      planSyncPgSpec typeMap true [modelC8a] [⟨"t1", ["id", "meta"]⟩] ∧
    (planSyncPg [modelC8a] [⟨"t1", ["id", "meta"]⟩]).operations = [] ∧
    (planSyncPg [modelC8a] [⟨"t1", ["id", "meta"]⟩]).logs = [] :=
  ⟨(c8_plan_shape [modelC8a] [⟨"t1", ["id", "meta"]⟩]).1,
    (c8_plan_shape [modelC8a] [⟨"t1", ["id", "meta"]⟩]).2 (by decide)⟩

end Synqra

namespace Synqra

/-- A document-store validator document (`$jsonSchema`): one bsonType
alternation per field, plus the required list (left empty by the planner). -/
structure MongoValidator where
  properties : List (String × List String)
  required : List String
  deriving DecidableEq, Repr

/-- A document-store migration operation: `{create: table}` or
`{collMod: table, validator: …}`. -/
inductive MongoSyncOp where
  | createColl (table : String)
  | collMod (table : String) (validator : MongoValidator)
  deriving DecidableEq, Repr

/-- `PostgresAdapter.sync` applied to a plan: each operation is executed in
order and any failure propagates immediately — there is no catch, benign
idempotency conflicts included. -/
def pgSyncRun (exec : String → Except String Unit) :
    List String → Except String Unit
  | [] => .ok ()
  | op :: rest =>
    match exec op with
    | .ok _ => pgSyncRun exec rest
    | .error e => .error e

/-- `MongoAdapter.sync` applied to a plan: each operation is executed in
order inside a try block whose catch ignores the error unconditionally and
without logging, so the loop always continues and the call always reports
success. -/
def mongoSyncRun (exec : MongoSyncOp → Except String Unit) :
    List MongoSyncOp → Except String Unit
  | [] => .ok ()
  | op :: rest =>
    match exec op with
    | _ => mongoSyncRun exec rest

/-- C9 (code behaviour at the failing input): the Mongo sync loop swallows
every operation error — even one no idempotency conflict could explain —
and reports success, and the Postgres sync loop re-raises even the benign
duplicate-column conflict the claim says must be tolerated; so neither
backend family implements the claimed tolerate-benign / re-raise-fatal
behaviour. -/
theorem c9_sync_error_handling :
    (∀ (exec : MongoSyncOp → Except String Unit) (ops : List MongoSyncOp),
        mongoSyncRun exec ops = .ok ()) ∧
    mongoSyncRun (fun _ => .error "connection reset")
      [MongoSyncOp.createColl "users"] = .ok () ∧
    pgSyncRun (fun _ => .error "column of relation already exists")
      ["ALTER TABLE \"users\" ADD COLUMN \"age\" FLOAT;"] =
      .error "column of relation already exists" := by
  refine ⟨?_, rfl, rfl⟩
  intro exec ops
  induction ops with
  | nil => rfl
  | cons op rest ih =>
    rw [mongoSyncRun]
    exact ih

end Synqra
